import Mathlib

/-!
# novatel_gps_driver: wire-field decoding (`parsers/parsing_utils.cpp`)

A shallow embedding of the status-word decoders, the ASCII field parsers and
the binary field decoders of `parsing_utils.cpp`, followed by the properties
proved about them.

Conventions of the embedding.

* A `uint32_t` argument is a natural number below `2 ^ 32`; the bound is a
  hypothesis of the theorems, the definitions themselves are total on `Nat`.
* A function that writes through a reference parameter takes the prior content
  of the referenced object and returns its content after the call (together
  with the C++ return value when there is one).
* `&` on unsigned operands is `&&&` and `>>` is `>>>` on `Nat`.
-/

namespace novatel_gps_driver

/-! ## Bits of a word -/

/-- Bit `k` of the word `s` (bit 0 is the least significant one), as `0` or `1`. -/
def bit (s k : Nat) : Nat := s / 2 ^ k % 2

/-! ## Message records -/

/-- Modelled from the spec: the message type `novatel_gps_msgs::NovatelReceiverStatus`
is declared outside `src/`. The record holds the original 32-bit mask and one boolean
per field that `GetNovatelReceiverStatusMessage` assigns. -/
structure NovatelReceiverStatus where
  original_status_code : Nat
  error_flag : Bool
  temperature_flag : Bool
  voltage_supply_flag : Bool
  antenna_powered : Bool
  antenna_is_open : Bool
  antenna_is_shorted : Bool
  cpu_overload_flag : Bool
  com1_buffer_overrun : Bool
  com2_buffer_overrun : Bool
  com3_buffer_overrun : Bool
  usb_buffer_overrun : Bool
  rf1_agc_flag : Bool
  rf2_agc_flag : Bool
  almanac_flag : Bool
  position_solution_flag : Bool
  position_fixed_flag : Bool
  clock_steering_status_enabled : Bool
  clock_model_flag : Bool
  oemv_external_oscillator_flag : Bool
  software_resource_flag : Bool
  aux3_status_event_flag : Bool
  aux2_status_event_flag : Bool
  aux1_status_event_flag : Bool
  deriving DecidableEq, Repr, Inhabited

/-- Modelled from the spec: the message type
`novatel_gps_msgs::NovatelExtendedSolutionStatus` is declared outside `src/`. The flag
`advance_rtk_verified` is an 8-bit cell that receives the raw value of `0x01 & status`
(the spec: "non-zero test, not strictly boolean-normalized"); it reads as true when it
is non-zero. -/
structure NovatelExtendedSolutionStatus where
  original_mask : Nat
  advance_rtk_verified : Nat
  psuedorange_iono_correction : String
  deriving DecidableEq, Repr, Inhabited

/-- Modelled from the spec: the message type `novatel_gps_msgs::NovatelSignalMask` is
declared outside `src/`. Each of the five flags is an 8-bit cell that receives the raw
value of `mask & bit`; it reads as true when it is non-zero. -/
structure NovatelSignalMask where
  original_mask : Nat
  gps_L1_used_in_solution : Nat
  gps_L2_used_in_solution : Nat
  gps_L3_used_in_solution : Nat
  glonass_L1_used_in_solution : Nat
  glonass_L2_used_in_solution : Nat
  deriving DecidableEq, Repr, Inhabited

/-- Conversion of an unsigned value to an 8-bit cell (`uint8_t`). -/
def toUInt8 (x : Nat) : Nat := x % 2 ^ 8

/-! ## Status-word decoders -/

/-- `void GetNovatelReceiverStatusMessage(uint32_t status, NovatelReceiverStatus&)`. -/
def GetNovatelReceiverStatusMessage (status : Nat)
    (receiver_status_msg : NovatelReceiverStatus) : NovatelReceiverStatus :=
  { receiver_status_msg with
    original_status_code := status,
    error_flag := (status &&& 0x00000001) != 0,
    temperature_flag := (status &&& 0x00000002) != 0,
    voltage_supply_flag := (status &&& 0x00000004) != 0,
    antenna_powered := (status &&& 0x00000008) == 0,
    antenna_is_open := (status &&& 0x00000020) != 0,
    antenna_is_shorted := (status &&& 0x00000040) != 0,
    cpu_overload_flag := (status &&& 0x00000080) != 0,
    com1_buffer_overrun := (status &&& 0x00000100) != 0,
    com2_buffer_overrun := (status &&& 0x00000200) != 0,
    com3_buffer_overrun := (status &&& 0x00000400) != 0,
    usb_buffer_overrun := (status &&& 0x00000800) != 0,
    rf1_agc_flag := (status &&& 0x00008000) != 0,
    rf2_agc_flag := (status &&& 0x00020000) != 0,
    almanac_flag := (status &&& 0x00040000) != 0,
    position_solution_flag := (status &&& 0x00080000) != 0,
    position_fixed_flag := (status &&& 0x00100000) != 0,
    clock_steering_status_enabled := (status &&& 0x00200000) == 0,
    clock_model_flag := (status &&& 0x00400000) != 0,
    oemv_external_oscillator_flag := (status &&& 0x00800000) != 0,
    software_resource_flag := (status &&& 0x01000000) != 0,
    aux3_status_event_flag := (status &&& 0x20000000) != 0,
    aux2_status_event_flag := (status &&& 0x40000000) != 0,
    aux1_status_event_flag := (status &&& 0x80000000) != 0 }

/-- `void GetExtendedSolutionStatusMessage(uint32_t status, NovatelExtendedSolutionStatus&)`. -/
def GetExtendedSolutionStatusMessage (status : Nat)
    (msg : NovatelExtendedSolutionStatus) : NovatelExtendedSolutionStatus :=
  let msg := { msg with original_mask := status }
  let msg := { msg with advance_rtk_verified := toUInt8 (0x01 &&& status) }
  let pseudo_iono_correction_mask := (0x0E &&& status) >>> 1
  match pseudo_iono_correction_mask with
  | 0 => { msg with psuedorange_iono_correction := "Unknown" }
  | 1 => { msg with psuedorange_iono_correction := "Klobuchar Broadcast" }
  | 2 => { msg with psuedorange_iono_correction := "SBAS Broadcast" }
  | 3 => { msg with psuedorange_iono_correction := "Multi-frequency Computed" }
  | 4 => { msg with psuedorange_iono_correction := "PSRDiff Correction" }
  | 5 => { msg with psuedorange_iono_correction := "Novatel Blended Iono Value" }
  | _ => { msg with psuedorange_iono_correction := "Unknown" }

/-- `void GetSignalsUsed(uint32_t mask, NovatelSignalMask&)`. -/
def GetSignalsUsed (mask : Nat) (msg : NovatelSignalMask) : NovatelSignalMask :=
  let msg := { msg with original_mask := mask }
  let msg := { msg with gps_L1_used_in_solution := toUInt8 (mask &&& 0x01) }
  let msg := { msg with gps_L2_used_in_solution := toUInt8 (mask &&& 0x02) }
  let msg := { msg with gps_L3_used_in_solution := toUInt8 (mask &&& 0x04) }
  let msg := { msg with glonass_L1_used_in_solution := toUInt8 (mask &&& 0x10) }
  let msg := { msg with glonass_L2_used_in_solution := toUInt8 (mask &&& 0x20) }
  msg

/-! ## The string conversions of `swri_string_util`

The ASCII parsers delegate to `swri_string_util::ToDouble`, `ToFloat`, `ToInt32` and
`ToUInt32`, which live in another package. The parsers below take the conversion they
call as a parameter: a conversion maps a token (and a base) to `some v` when it returns
`true` after storing `v` in its output argument, and to `none` when it returns `false`
and leaves its output argument as it was. The definitions of this section are the
library's own conversions over the C function `strtol`; they serve for the concrete tokens
of the theorems. -/

namespace swri_string_util

/-- Modelled from the spec: `isspace` of the C library (not under `src/`), in the "C"
locale: space, and the control characters `\t \n \v \f \r`. -/
def isspace (c : Char) : Bool :=
  c = ' ' || (decide (9 ≤ c.toNat) && decide (c.toNat ≤ 13))

/-- Modelled from the spec: the value of a digit character for `strtol` (not under
`src/`): `0`-`9`, then the letters of either case for ten to thirty-five. -/
def digitValue (c : Char) : Option Nat :=
  if '0'.toNat ≤ c.toNat ∧ c.toNat ≤ '9'.toNat then some (c.toNat - '0'.toNat)
  else if 'a'.toNat ≤ c.toNat ∧ c.toNat ≤ 'z'.toNat then some (c.toNat - 'a'.toNat + 10)
  else if 'A'.toNat ≤ c.toNat ∧ c.toNat ≤ 'Z'.toNat then some (c.toNat - 'A'.toNat + 10)
  else none

/-- Modelled from the spec: the subject sequence of `strtol` (not under `src/`) read to
the end of the token: the number written by `cs` in base `base`, or `none` when some
character of `cs` is not a digit of that base. -/
def digitsValue (base : Nat) : List Char → Nat → Option Nat
  | [], acc => some acc
  | c :: cs, acc =>
    match digitValue c with
    | some d => if d < base then digitsValue base cs (acc * base + d) else none
    | none => none

/-- Whether `cs` starts with `0x` or `0X` followed by a hexadecimal digit. -/
def hasHexPrefix (cs : List Char) : Bool :=
  match cs with
  | '0' :: x :: d :: _ =>
    (x = 'x' || x = 'X') && (match digitValue d with | some v => decide (v < 16) | none => false)
  | _ => false

/-- Modelled from the spec: `strtol` of the C library (not under `src/`), as the library
uses it: `some number` when the call `strtol(s, &end, base)` leaves `errno` at 0 and `end`
at the end of the token, `none` otherwise. Leading white space, an optional sign, an
optional `0x` for base 16, base 0 for the C literal prefixes; `long` has 64 bits. -/
def strtol (s : String) (base : Int) : Option Int :=
  if base < 0 ∨ base = 1 ∨ 36 < base then none
  else
    let cs := s.toList.dropWhile isspace
    let neg : Bool := cs.head? = some '-'
    let cs := if cs.head? = some '-' ∨ cs.head? = some '+' then cs.tail else cs
    let hex : Bool := (base = 0 ∨ base = 16) ∧ hasHexPrefix cs
    let b : Nat :=
      if base = 0 then (if hex then 16 else if cs.head? = some '0' then 8 else 10)
      else base.toNat
    let cs := if hex then cs.drop 2 else cs
    if cs.isEmpty then (if s.isEmpty then some 0 else none)
    else
      match digitsValue b cs 0 with
      | some n =>
        let number : Int := if neg then -(n : Int) else (n : Int)
        if -(2 : Int) ^ 63 ≤ number ∧ number ≤ 2 ^ 63 - 1 then some number else none
      | none => none

/-- Modelled from the spec: `swri_string_util::ToDouble` (not under `src/`): an empty
token is rejected, any other token is handed to `strtod`, given here as the function
`strtod` that yields the number when the whole token converts without error. -/
def ToDouble {D : Type} (strtod : String → Option D) (string : String) : Option D :=
  if string.isEmpty then none else strtod string

/-- Modelled from the spec: `swri_string_util::ToFloat` (not under `src/`): an empty
token is rejected, any other token is handed to `strtof`. -/
def ToFloat {F : Type} (strtof : String → Option F) (string : String) : Option F :=
  if string.isEmpty then none else strtof string

/-- Modelled from the spec: `swri_string_util::ToInt32` (not under `src/`): an empty
token is rejected; otherwise the token is read by `strtol` and accepted when the whole
token converts to a number within the range of `int32_t`. -/
def ToInt32 (string : String) (base : Int) : Option Int :=
  if string.isEmpty then none
  else
    match strtol string base with
    | some number =>
      if number > 2147483647 ∨ number < -2147483648 then none else some number
    | none => none

/-- Modelled from the spec: `swri_string_util::ToUInt32` (not under `src/`): an empty
token is rejected; otherwise the token is read by `strtol` and accepted when the whole
token converts to a number within the range of `uint32_t`. -/
def ToUInt32 (string : String) (base : Int) : Option Nat :=
  if string.isEmpty then none
  else
    match strtol string base with
    | some number =>
      if number > 4294967295 ∨ number < 0 then none else some number.toNat
    | none => none

end swri_string_util

/-! ## ASCII field parsers

Each parser takes the prior content `value` of its output argument and returns the C++
return value together with the content of the output argument after the call. -/

set_option linter.unusedVariables false

/-- `static_cast<int16_t>` of a 32-bit signed value. -/
def toInt16 (x : Int) : Int := (x + 2 ^ 15) % 2 ^ 16 - 2 ^ 15

/-- `static_cast<uint16_t>` of a 32-bit unsigned value. -/
def toUInt16 (x : Nat) : Nat := x % 2 ^ 16

namespace Ascii

/-- `bool ParseDouble(const std::string& string, double& value)`. -/
def ParseDouble {D : Type} (ToDouble : String → Option D) (string : String) (value : D) :
    Bool × D :=
  match ToDouble string with
  | some number => (true, number)
  | none => (string.isEmpty, value)

/-- `bool ParseFloat(const std::string& string, float& value)`. -/
def ParseFloat {F : Type} (ToFloat : String → Option F) (string : String) (value : F) :
    Bool × F :=
  match ToFloat string with
  | some number => (true, number)
  | none => (string.isEmpty, value)

/-- `bool ParseInt16(const std::string& string, int16_t& value, int32_t base)`. -/
def ParseInt16 (ToInt32 : String → Int → Option Int) (string : String) (value : Int)
    (base : Int) : Bool × Int :=
  let value : Int := 0
  if string.isEmpty then (true, value)
  else
    match ToInt32 string base with
    | some tmp =>
      if tmp ≤ 32767 ∧ tmp ≥ -32768 then (true, toInt16 tmp) else (false, value)
    | none => (false, value)

/-- `bool ParseInt32(const std::string& string, int32_t& value, int32_t base)`. -/
def ParseInt32 (ToInt32 : String → Int → Option Int) (string : String) (value : Int)
    (base : Int) : Bool × Int :=
  match ToInt32 string base with
  | some number => (true, number)
  | none => (string.isEmpty, value)

/-- `bool ParseUInt32(const std::string& string, uint32_t& value, int32_t base)`. -/
def ParseUInt32 (ToUInt32 : String → Int → Option Nat) (string : String) (value : Nat)
    (base : Int) : Bool × Nat :=
  match ToUInt32 string base with
  | some number => (true, number)
  | none => (string.isEmpty, value)

/-- `bool ParseUInt8(const std::string& string, uint8_t& value, int32_t base)`. -/
def ParseUInt8 (ToUInt32 : String → Int → Option Nat) (string : String) (value : Nat)
    (base : Int) : Bool × Nat :=
  let value : Nat := 0
  if string.isEmpty then (true, value)
  else
    match ToUInt32 string base with
    | some tmp => if tmp ≤ 255 then (true, toUInt8 tmp) else (false, value)
    | none => (false, value)

/-- `bool ParseUInt16(const std::string& string, uint16_t& value, int32_t base)`. -/
def ParseUInt16 (ToUInt32 : String → Int → Option Nat) (string : String) (value : Nat)
    (base : Int) : Bool × Nat :=
  let value : Nat := 0
  if string.isEmpty then (true, value)
  else
    match ToUInt32 string base with
    | some tmp => if tmp ≤ 65535 then (true, toUInt16 tmp) else (false, value)
    | none => (false, value)

end Ascii

/-! ## Binary field decoders

A buffer is the list of the bytes that can be read through the pointer; a read past its
end has no value (`none`). -/

/-- A byte of a buffer (`uint8_t`). -/
abbrev Byte := Fin 256

/-- `std::copy(buffer, buffer + n, dst)`: the `n` bytes `buffer[0]`, ..., `buffer[n-1]`
written to `dst`, or `none` when the buffer holds fewer than `n` bytes. -/
def copy : Nat → List Byte → Option (List Byte)
  | 0, _ => some []
  | _ + 1, [] => none
  | n + 1, b :: bs => (copy n bs).map (fun dst => b :: dst)

/-- Modelled from the spec: the object representation of an unsigned integer on the host
(not under `src/`), which the spec takes to be little-endian: the value of the object whose
bytes, in address order, are `bytes`. -/
def fromBytes : List Byte → Nat
  | [] => 0
  | b :: bs => b.val + 256 * fromBytes bs

/-- Modelled from the spec: the value of a signed integer of `w` bits on the host (not
under `src/`) whose bits read `u` as an unsigned number: two's complement. -/
def toSigned (w : Nat) (u : Nat) : Int :=
  if u < 2 ^ (w - 1) then (u : Int) else (u : Int) - 2 ^ w

namespace Binary

/-- `double ParseDouble(const uint8_t* buffer)`. The `double` returned is given by its
IEEE-754 bit pattern, a number below `2 ^ 64`: the copy fills the eight bytes of the
object and nothing else is computed. -/
def ParseDouble (buffer : List Byte) : Option Nat :=
  (copy 8 buffer).map (fun x => fromBytes x)

/-- `float ParseFloat(const uint8_t* buffer)`. The `float` returned is given by its
IEEE-754 bit pattern, a number below `2 ^ 32`. -/
def ParseFloat (buffer : List Byte) : Option Nat :=
  (copy 4 buffer).map (fun x => fromBytes x)

/-- `int16_t ParseInt16(const uint8_t* buffer)`. -/
def ParseInt16 (buffer : List Byte) : Option Int :=
  (copy 2 buffer).map (fun number => toSigned 16 (fromBytes number))

/-- `int32_t ParseInt32(const uint8_t* buffer)`. -/
def ParseInt32 (buffer : List Byte) : Option Int :=
  (copy 4 buffer).map (fun number => toSigned 32 (fromBytes number))

/-- `uint32_t ParseUInt32(const uint8_t* buffer)`. -/
def ParseUInt32 (buffer : List Byte) : Option Nat :=
  (copy 4 buffer).map (fun number => fromBytes number)

/-- `uint16_t ParseUInt16(const uint8_t* buffer)`. -/
def ParseUInt16 (buffer : List Byte) : Option Nat :=
  (copy 2 buffer).map (fun number => fromBytes number)

end Binary

/-- The encoding of the spec's round-trip law for an unsigned value: the `n` bytes of `x`
in little-endian order (least significant byte first). -/
def encodeLittleEndian : Nat → Nat → List Byte
  | 0, _ => []
  | n + 1, x => ⟨x % 256, Nat.mod_lt x (by decide)⟩ :: encodeLittleEndian n (x / 256)

/-- The encoding of the spec's round-trip law for a signed value: the `n` bytes of the
two's complement of `x`, in little-endian order. -/
def encodeLittleEndianSigned (n : Nat) (x : Int) : List Byte :=
  encodeLittleEndian n (x % 2 ^ (8 * n)).toNat

/-! ## Time and angle conversions

A finite `double` is the rational number it denotes. `UtcFloatToSeconds` is embedded in
exact arithmetic: its operations on doubles are a subtraction and an addition of whole
numbers, taken as the exact ones. `ConvertDmsToDegrees` divides by 60, so each of its
operations on doubles is followed by the rounding of the type. The `uint32_t`
intermediates keep their wrap-around modulo `2 ^ 32`. -/

/-- `static_cast<uint32_t>(x)` of a `double`: the integer part of `x`, for `x` from 0 up
to `2 ^ 32` (the conversion is undefined in C++ outside that range; the value kept here
is the integer part reduced modulo `2 ^ 32`, negative numbers giving 0). -/
def castUInt32 (x : ℚ) : Nat := Int.toNat ⌊x⌋ % 2 ^ 32

/-- Product of two `uint32_t`. -/
def mulUInt32 (a b : Nat) : Nat := a * b % 2 ^ 32

/-- Sum of two `uint32_t`. -/
def addUInt32 (a b : Nat) : Nat := (a + b) % 2 ^ 32

/-- Difference of two `uint32_t`. -/
def subUInt32 (a b : Nat) : Nat := (a + 2 ^ 32 - b % 2 ^ 32) % 2 ^ 32

/-- `double UtcFloatToSeconds(double utc_float)`. -/
def UtcFloatToSeconds (utc_float : ℚ) : ℚ :=
  let hours : Nat := castUInt32 utc_float / 10000
  let minutes : Nat := subUInt32 (castUInt32 utc_float) (mulUInt32 hours 10000) / 100
  let seconds : ℚ :=
    utc_float - ((addUInt32 (mulUInt32 hours 10000) (mulUInt32 minutes 100) : Nat) : ℚ)
  let seconds : ℚ :=
    seconds + ((addUInt32 (mulUInt32 hours 3600) (mulUInt32 minutes 60) : Nat) : ℚ)
  seconds

/-- Modelled from the spec: rounding of a number to the nearest integer, ties to the even
one, the rounding rule of the arithmetic of `double` (not under `src/`). -/
def roundHalfEven (y : ℚ) : Int :=
  let f : Int := ⌊y⌋
  let r : ℚ := y - f
  if r < 1 / 2 then f
  else if 1 / 2 < r then f + 1
  else if f % 2 = 0 then f else f + 1

/-- Modelled from the spec: the spacing of the doubles around `x` (IEEE-754 binary64, not
under `src/`): `2 ^ (e - 52)` for `2 ^ e <= |x| < 2 ^ (e + 1)`, and `2 ^ (-1074)` in the
subnormal range below `2 ^ (-1022)`. -/
def quantum (x : ℚ) : ℚ := (2 : ℚ) ^ (max (Int.log 2 |x|) (-1022) - 52)

/-- Modelled from the spec: the result of an operation on doubles whose exact value is
`x` (IEEE-754 binary64, round to nearest, ties to even; not under `src/`): the multiple
of the spacing nearest to `x`. Overflow to infinity is left out: the values rounded here
stay below `2 ^ 32`. -/
def roundDouble (x : ℚ) : ℚ :=
  if x = 0 then 0 else (roundHalfEven (x / quantum x) : ℚ) * quantum x

/-- `double ConvertDmsToDegrees(double dms)`. -/
def ConvertDmsToDegrees (dms : ℚ) : ℚ :=
  let whole_degrees : Nat := castUInt32 dms / 100
  let minutes : ℚ := roundDouble (dms - ((mulUInt32 whole_degrees 100 : Nat) : ℚ))
  let degrees : ℚ := roundDouble ((whole_degrees : ℚ) + roundDouble (minutes / 60))
  degrees

/-! ## Auxiliary facts on bit masks -/

theorem land_two_pow (s k : Nat) : s &&& 2 ^ k = 2 ^ k * bit s k := by
  unfold bit
  apply Nat.eq_of_testBit_eq
  intro i
  rw [Nat.testBit_and, Nat.testBit_two_pow]
  have hk : s.testBit k = decide (s / 2 ^ k % 2 = 1) := Nat.testBit_to_div_mod
  rcases Nat.mod_two_eq_zero_or_one (s / 2 ^ k) with h | h
  · rw [h] at hk ⊢
    by_cases hi : k = i
    · subst hi; simp [hk]
    · simp [hi]
  · rw [h, Nat.mul_one, Nat.testBit_two_pow]
    by_cases hi : k = i
    · subst hi; simp [hk, h]
    · simp [hi]

theorem bit_lt_two (s k : Nat) : bit s k < 2 := Nat.mod_lt _ (by decide)

theorem land_two_pow_ne_zero (s k : Nat) : ((s &&& 2 ^ k) != 0) = decide (bit s k = 1) := by
  rw [land_two_pow]
  have h := bit_lt_two s k
  have hp : 0 < 2 ^ k := Nat.two_pow_pos k
  rcases Nat.lt_or_ge (bit s k) 1 with h0 | h1
  · have : bit s k = 0 := by omega
    simp [this]
  · have : bit s k = 1 := by omega
    simp [this]

theorem land_two_pow_eq_zero (s k : Nat) : ((s &&& 2 ^ k) == 0) = decide (bit s k = 0) := by
  rw [land_two_pow]
  have h := bit_lt_two s k
  have hp : 0 < 2 ^ k := Nat.two_pow_pos k
  rcases Nat.lt_or_ge (bit s k) 1 with h0 | h1
  · have : bit s k = 0 := by omega
    simp [this]
  · have : bit s k = 1 := by omega
    simp [this]

theorem iono_subfield (s : Nat) : (0x0E &&& s) >>> 1 = s / 2 % 8 := by
  have h8 : s / 2 % 8 = (s >>> 1) % 2 ^ 3 := by
    rw [Nat.shiftRight_eq_div_pow]; norm_num
  rw [h8]
  apply Nat.eq_of_testBit_eq
  intro i
  rw [Nat.testBit_shiftRight, Nat.testBit_and, Nat.testBit_mod_two_pow, Nat.testBit_shiftRight]
  by_cases hi : i < 3
  · have : Nat.testBit 0x0E (1 + i) = true := by
      interval_cases i <;> decide
    simp [this, hi]
  · have : Nat.testBit 0x0E (1 + i) = false := by
      apply Nat.testBit_lt_two_pow
      calc (0x0E : Nat) < 2 ^ 4 := by decide
        _ ≤ 2 ^ (1 + i) := Nat.pow_le_pow_right (by decide) (by omega)
    simp [this, hi]

theorem toUInt8_land_two_pow (m k : Nat) (hk : k < 8) :
    toUInt8 (m &&& 2 ^ k) = 2 ^ k * bit m k := by
  rw [land_two_pow]
  unfold toUInt8
  apply Nat.mod_eq_of_lt
  have hb := bit_lt_two m k
  have hp : 2 ^ k < 2 ^ 8 := Nat.pow_lt_pow_right (by decide) hk
  rcases Nat.lt_or_ge (bit m k) 1 with h0 | h1
  · have : bit m k = 0 := by omega
    simp [this]
  · have : bit m k = 1 := by omega
    simpa [this] using hp

theorem isEmpty_eq_false_of_ne {t : String} (ht : t ≠ "") : t.isEmpty = false := by
  cases h : t.isEmpty
  · rfl
  · exact absurd ((String.isEmpty_iff t).mp h) ht

theorem ne_of_isEmpty_eq_false {t : String} (ht : t.isEmpty = false) : t ≠ "" := by
  intro h
  rw [h] at ht
  exact absurd ht (by decide)

theorem ext_status_fields (t : Nat) (m : NovatelExtendedSolutionStatus) :
    (GetExtendedSolutionStatusMessage t m).original_mask = t ∧
    (GetExtendedSolutionStatusMessage t m).advance_rtk_verified = toUInt8 (0x01 &&& t) := by
  unfold GetExtendedSolutionStatusMessage
  constructor <;> (simp only []; split <;> rfl)

theorem receiver_status_by_bits (s : Nat) (r : NovatelReceiverStatus) :
    GetNovatelReceiverStatusMessage s r =
      { original_status_code := s,
        error_flag := decide (bit s 0 = 1),
        temperature_flag := decide (bit s 1 = 1),
        voltage_supply_flag := decide (bit s 2 = 1),
        antenna_powered := decide (bit s 3 = 0),
        antenna_is_open := decide (bit s 5 = 1),
        antenna_is_shorted := decide (bit s 6 = 1),
        cpu_overload_flag := decide (bit s 7 = 1),
        com1_buffer_overrun := decide (bit s 8 = 1),
        com2_buffer_overrun := decide (bit s 9 = 1),
        com3_buffer_overrun := decide (bit s 10 = 1),
        usb_buffer_overrun := decide (bit s 11 = 1),
        rf1_agc_flag := decide (bit s 15 = 1),
        rf2_agc_flag := decide (bit s 17 = 1),
        almanac_flag := decide (bit s 18 = 1),
        position_solution_flag := decide (bit s 19 = 1),
        position_fixed_flag := decide (bit s 20 = 1),
        clock_steering_status_enabled := decide (bit s 21 = 0),
        clock_model_flag := decide (bit s 22 = 1),
        oemv_external_oscillator_flag := decide (bit s 23 = 1),
        software_resource_flag := decide (bit s 24 = 1),
        aux3_status_event_flag := decide (bit s 29 = 1),
        aux2_status_event_flag := decide (bit s 30 = 1),
        aux1_status_event_flag := decide (bit s 31 = 1) } := by
  have h0 := land_two_pow_ne_zero s 0
  have h1 := land_two_pow_ne_zero s 1
  have h2 := land_two_pow_ne_zero s 2
  have h3 := land_two_pow_eq_zero s 3
  have h5 := land_two_pow_ne_zero s 5
  have h6 := land_two_pow_ne_zero s 6
  have h7 := land_two_pow_ne_zero s 7
  have h8 := land_two_pow_ne_zero s 8
  have h9 := land_two_pow_ne_zero s 9
  have h10 := land_two_pow_ne_zero s 10
  have h11 := land_two_pow_ne_zero s 11
  have h15 := land_two_pow_ne_zero s 15
  have h17 := land_two_pow_ne_zero s 17
  have h18 := land_two_pow_ne_zero s 18
  have h19 := land_two_pow_ne_zero s 19
  have h20 := land_two_pow_ne_zero s 20
  have h21 := land_two_pow_eq_zero s 21
  have h22 := land_two_pow_ne_zero s 22
  have h23 := land_two_pow_ne_zero s 23
  have h24 := land_two_pow_ne_zero s 24
  have h29 := land_two_pow_ne_zero s 29
  have h30 := land_two_pow_ne_zero s 30
  have h31 := land_two_pow_ne_zero s 31
  simp only [GetNovatelReceiverStatusMessage, NovatelReceiverStatus.mk.injEq, true_and]
  refine ⟨?_, ?_, ?_, ?_, ?_, ?_, ?_, ?_, ?_, ?_, ?_, ?_, ?_, ?_, ?_, ?_, ?_, ?_, ?_, ?_, ?_,
    ?_, ?_⟩
  · exact h0
  · exact h1
  · exact h2
  · exact h3
  · exact h5
  · exact h6
  · exact h7
  · exact h8
  · exact h9
  · exact h10
  · exact h11
  · exact h15
  · exact h17
  · exact h18
  · exact h19
  · exact h20
  · exact h21
  · exact h22
  · exact h23
  · exact h24
  · exact h29
  · exact h30
  · exact h31

theorem copy_eq_take : ∀ (n : Nat) (buffer : List Byte), n ≤ buffer.length →
    copy n buffer = some (buffer.take n)
  | 0, _, _ => by simp [copy]
  | n + 1, [], h => by simp at h
  | n + 1, b :: bs, h => by
    have ih := copy_eq_take n bs (by simpa using h)
    simp [copy, ih]

theorem copy_take (n : Nat) (buffer : List Byte) (h : n ≤ buffer.length) :
    copy n (buffer.take n) = some (buffer.take n) := by
  have hl : n ≤ (buffer.take n).length := by simp [List.length_take, h]
  rw [copy_eq_take n (buffer.take n) hl, List.take_take, Nat.min_self]

theorem castUInt32_nat_add (n : Nat) (s : ℚ) (hs0 : 0 ≤ s) (hlt : (n : ℚ) + s < 2 ^ 32) :
    castUInt32 ((n : ℚ) + s) = n + Int.toNat ⌊s⌋ ∧ n + Int.toNat ⌊s⌋ < 2 ^ 32 ∧
    ((castUInt32 ((n : ℚ) + s) : Nat) : Int) = ⌊(n : ℚ) + s⌋ := by
  have hf0 : 0 ≤ ⌊s⌋ := Int.floor_nonneg.mpr hs0
  have hle : ((⌊s⌋ : ℤ) : ℚ) ≤ s := Int.floor_le s
  obtain ⟨k, hk⟩ := Int.eq_ofNat_of_zero_le hf0
  have hkq : (k : ℚ) ≤ s := by
    have : ((⌊s⌋ : ℤ) : ℚ) = (k : ℚ) := by rw [hk]; simp
    rw [← this]; exact hle
  have hb : n + k < 2 ^ 32 := by
    have : ((n + k : ℕ) : ℚ) < ((2 ^ 32 : ℕ) : ℚ) := by
      push_cast
      linarith
    exact_mod_cast this
  have hfl : ⌊(n : ℚ) + s⌋ = (n : ℤ) + ⌊s⌋ := Int.floor_nat_add n s
  unfold castUInt32
  rw [hfl, hk]
  have : Int.toNat ((n : ℤ) + (k : ℤ)) = n + k := by omega
  rw [this]
  simp only [Int.toNat_ofNat]
  rw [Nat.mod_eq_of_lt hb]
  exact ⟨rfl, hb, by push_cast; rfl⟩

theorem roundHalfEven_error (y : ℚ) : |((roundHalfEven y : Int) : ℚ) - y| ≤ 1 / 2 := by
  unfold roundHalfEven
  have h1 := Int.floor_le y
  have h2 := Int.lt_floor_add_one y
  simp only []
  split_ifs with a b c
  · rw [abs_le]; constructor <;> linarith
  · rw [abs_le]; push_cast; constructor <;> linarith
  · rw [abs_le]; constructor <;> linarith
  · rw [abs_le]; push_cast; constructor <;> linarith

theorem roundHalfEven_eq (y : ℚ) (n : Int) (h1 : (n : ℚ) - 1 / 2 < y)
    (h2 : y < (n : ℚ) + 1 / 2) : roundHalfEven y = n := by
  unfold roundHalfEven
  have f1 := Int.floor_le y
  have f2 := Int.lt_floor_add_one y
  simp only []
  split_ifs with a b c
  · have u : ((⌊y⌋ : Int) : ℚ) < ((n + 1 : Int) : ℚ) := by push_cast; linarith
    have v : ((n : Int) : ℚ) < ((⌊y⌋ + 1 : Int) : ℚ) := by push_cast; linarith
    have u' : ⌊y⌋ < n + 1 := by exact_mod_cast u
    have v' : n < ⌊y⌋ + 1 := by exact_mod_cast v
    omega
  · have u : ((⌊y⌋ : Int) : ℚ) < ((n : Int) : ℚ) := by linarith
    have v : ((n : Int) : ℚ) < ((⌊y⌋ + 2 : Int) : ℚ) := by push_cast; linarith
    have u' : ⌊y⌋ < n := by exact_mod_cast u
    have v' : n < ⌊y⌋ + 2 := by exact_mod_cast v
    omega
  · have u : ((⌊y⌋ : Int) : ℚ) < ((n : Int) : ℚ) := by linarith
    have v : ((n : Int) : ℚ) < ((⌊y⌋ + 1 : Int) : ℚ) := by push_cast; linarith
    have u' : ⌊y⌋ < n := by exact_mod_cast u
    have v' : n < ⌊y⌋ + 1 := by exact_mod_cast v
    omega
  · have u : ((⌊y⌋ : Int) : ℚ) < ((n : Int) : ℚ) := by linarith
    have v : ((n : Int) : ℚ) < ((⌊y⌋ + 1 : Int) : ℚ) := by push_cast; linarith
    have u' : ⌊y⌋ < n := by exact_mod_cast u
    have v' : n < ⌊y⌋ + 1 := by exact_mod_cast v
    omega

theorem quantum_pos (x : ℚ) : 0 < quantum x := zpow_pos (by norm_num) _

theorem roundDouble_error_quantum (x : ℚ) : |roundDouble x - x| ≤ quantum x / 2 := by
  have hq := quantum_pos x
  unfold roundDouble
  split_ifs with h0
  · rw [h0]; simp; exact (half_pos (quantum_pos 0)).le
  · have h := roundHalfEven_error (x / quantum x)
    have e : ((roundHalfEven (x / quantum x) : Int) : ℚ) * quantum x - x =
        (((roundHalfEven (x / quantum x) : Int) : ℚ) - x / quantum x) * quantum x := by
      field_simp
    rw [e, abs_mul, abs_of_pos hq]
    calc |((roundHalfEven (x / quantum x) : Int) : ℚ) - x / quantum x| * quantum x
        ≤ 1 / 2 * quantum x := mul_le_mul_of_nonneg_right h hq.le
      _ = quantum x / 2 := by ring

theorem quantum_le (x : ℚ) (k : Int) (hk : -1021 ≤ k) (h0 : x ≠ 0) (hx : |x| < 2 ^ k) :
    quantum x ≤ 2 ^ (k - 53) := by
  have hpos : 0 < |x| := abs_pos.mpr h0
  have hl : Int.log 2 |x| < k :=
    (Int.lt_zpow_iff_log_lt (by norm_num) hpos).mp (by simpa using hx)
  unfold quantum
  apply zpow_le_zpow_right₀ (by norm_num)
  omega

theorem roundDouble_error (x : ℚ) (k : ℕ) (hx : |x| < 2 ^ k) :
    |roundDouble x - x| ≤ 2 ^ k / 2 ^ 54 := by
  by_cases h0 : x = 0
  · rw [h0]
    have : roundDouble 0 = 0 := by simp [roundDouble]
    rw [this]; simp
    positivity
  · have hx' : |x| < (2 : ℚ) ^ (k : ℤ) := by rw [zpow_natCast]; exact hx
    have h1 := roundDouble_error_quantum x
    have h2 := quantum_le x k (by omega) h0 hx'
    have h3 : (2 : ℚ) ^ ((k : ℤ) - 53) = 2 ^ k / 2 ^ 53 := by
      rw [zpow_sub₀ (by norm_num), zpow_natCast]; norm_num
    rw [h3] at h2
    calc |roundDouble x - x| ≤ quantum x / 2 := h1
      _ ≤ 2 ^ k / 2 ^ 53 / 2 := by linarith
      _ = 2 ^ k / 2 ^ 54 := by ring

theorem roundDouble_eq (x : ℚ) (e n : Int) (he : -1022 ≤ e) (h1 : (2 : ℚ) ^ e ≤ x)
    (h2 : x < (2 : ℚ) ^ (e + 1)) (hn1 : (n : ℚ) - 1 / 2 < x / 2 ^ (e - 52))
    (hn2 : x / 2 ^ (e - 52) < (n : ℚ) + 1 / 2) : roundDouble x = n * 2 ^ (e - 52) := by
  have hpos : 0 < x := lt_of_lt_of_le (zpow_pos (by norm_num) e) h1
  have habs : |x| = x := abs_of_pos hpos
  have hlog : Int.log 2 |x| = e := by
    rw [habs]
    apply le_antisymm
    · have := (Int.lt_zpow_iff_log_lt (b := 2) (by norm_num) hpos).mp (by simpa using h2)
      omega
    · exact (Int.zpow_le_iff_le_log (b := 2) (by norm_num) hpos).mp (by simpa using h1)
  have hq : quantum x = 2 ^ (e - 52) := by
    unfold quantum
    rw [hlog, max_eq_left he]
  unfold roundDouble
  rw [if_neg hpos.ne', hq, roundHalfEven_eq _ n hn1 hn2]

/-! ## Receiver status word -/

/-- C1: for every 32-bit status mask `s` (and every prior content of the output record),
`GetNovatelReceiverStatusMessage` sets each of the 21 normal-polarity flags to true
exactly when its table bit of `s` is 1. -/
theorem receiver_status_normal_flags (s : Nat) (_hs : s < 2 ^ 32)
    (r : NovatelReceiverStatus) :
    ((GetNovatelReceiverStatusMessage s r).error_flag = true ↔ bit s 0 = 1) ∧
    ((GetNovatelReceiverStatusMessage s r).temperature_flag = true ↔ bit s 1 = 1) ∧
    ((GetNovatelReceiverStatusMessage s r).voltage_supply_flag = true ↔ bit s 2 = 1) ∧
    ((GetNovatelReceiverStatusMessage s r).antenna_is_open = true ↔ bit s 5 = 1) ∧
    ((GetNovatelReceiverStatusMessage s r).antenna_is_shorted = true ↔ bit s 6 = 1) ∧
    ((GetNovatelReceiverStatusMessage s r).cpu_overload_flag = true ↔ bit s 7 = 1) ∧
    ((GetNovatelReceiverStatusMessage s r).com1_buffer_overrun = true ↔ bit s 8 = 1) ∧
    ((GetNovatelReceiverStatusMessage s r).com2_buffer_overrun = true ↔ bit s 9 = 1) ∧
    ((GetNovatelReceiverStatusMessage s r).com3_buffer_overrun = true ↔ bit s 10 = 1) ∧
    ((GetNovatelReceiverStatusMessage s r).usb_buffer_overrun = true ↔ bit s 11 = 1) ∧
    ((GetNovatelReceiverStatusMessage s r).rf1_agc_flag = true ↔ bit s 15 = 1) ∧
    ((GetNovatelReceiverStatusMessage s r).rf2_agc_flag = true ↔ bit s 17 = 1) ∧
    ((GetNovatelReceiverStatusMessage s r).almanac_flag = true ↔ bit s 18 = 1) ∧
    ((GetNovatelReceiverStatusMessage s r).position_solution_flag = true ↔ bit s 19 = 1) ∧
    ((GetNovatelReceiverStatusMessage s r).position_fixed_flag = true ↔ bit s 20 = 1) ∧
    ((GetNovatelReceiverStatusMessage s r).clock_model_flag = true ↔ bit s 22 = 1) ∧
    ((GetNovatelReceiverStatusMessage s r).oemv_external_oscillator_flag = true ↔
      bit s 23 = 1) ∧
    ((GetNovatelReceiverStatusMessage s r).software_resource_flag = true ↔ bit s 24 = 1) ∧
    ((GetNovatelReceiverStatusMessage s r).aux3_status_event_flag = true ↔ bit s 29 = 1) ∧
    ((GetNovatelReceiverStatusMessage s r).aux2_status_event_flag = true ↔ bit s 30 = 1) ∧
    ((GetNovatelReceiverStatusMessage s r).aux1_status_event_flag = true ↔ bit s 31 = 1) := by
  have h0 := land_two_pow_ne_zero s 0
  have h1 := land_two_pow_ne_zero s 1
  have h2 := land_two_pow_ne_zero s 2
  have h5 := land_two_pow_ne_zero s 5
  have h6 := land_two_pow_ne_zero s 6
  have h7 := land_two_pow_ne_zero s 7
  have h8 := land_two_pow_ne_zero s 8
  have h9 := land_two_pow_ne_zero s 9
  have h10 := land_two_pow_ne_zero s 10
  have h11 := land_two_pow_ne_zero s 11
  have h15 := land_two_pow_ne_zero s 15
  have h17 := land_two_pow_ne_zero s 17
  have h18 := land_two_pow_ne_zero s 18
  have h19 := land_two_pow_ne_zero s 19
  have h20 := land_two_pow_ne_zero s 20
  have h22 := land_two_pow_ne_zero s 22
  have h23 := land_two_pow_ne_zero s 23
  have h24 := land_two_pow_ne_zero s 24
  have h29 := land_two_pow_ne_zero s 29
  have h30 := land_two_pow_ne_zero s 30
  have h31 := land_two_pow_ne_zero s 31
  norm_num at h0 h1 h2 h5 h6 h7 h8 h9 h10 h11 h15 h17 h18 h19 h20 h22 h23 h24 h29 h30 h31
  simp only [GetNovatelReceiverStatusMessage]
  refine ⟨?_, ?_, ?_, ?_, ?_, ?_, ?_, ?_, ?_, ?_, ?_, ?_, ?_, ?_, ?_, ?_, ?_, ?_, ?_, ?_, ?_⟩ <;>
    simp [*]

/-- Instance of C1 at the mask `0x80008021` (bits 0, 5, 15 and 31 set). -/
theorem receiver_status_normal_flags_witness :
    (0x80008021 : Nat) < 2 ^ 32 ∧
    ((GetNovatelReceiverStatusMessage 0x80008021 default).rf1_agc_flag = true ↔
      bit 0x80008021 15 = 1) :=
  ⟨by decide, (receiver_status_normal_flags 0x80008021 (by decide) default).2.2.2.2.2.2.2.2.2.2.1⟩

/-- C2: for every 32-bit status mask `s`, `antenna_powered` is true exactly when bit 3 of
`s` is 0 and `clock_steering_status_enabled` is true exactly when bit 21 of `s` is 0; for
`s = 0x00000001` the flags `error_flag`, `antenna_powered` and
`clock_steering_status_enabled` are true and every other flag of the record is false. -/
theorem receiver_status_inverted_flags (s : Nat) (_hs : s < 2 ^ 32)
    (r : NovatelReceiverStatus) :
    ((GetNovatelReceiverStatusMessage s r).antenna_powered = true ↔ bit s 3 = 0) ∧
    ((GetNovatelReceiverStatusMessage s r).clock_steering_status_enabled = true ↔
      bit s 21 = 0) ∧
    GetNovatelReceiverStatusMessage 0x00000001 r =
      { original_status_code := 0x00000001,
        error_flag := true,
        temperature_flag := false,
        voltage_supply_flag := false,
        antenna_powered := true,
        antenna_is_open := false,
        antenna_is_shorted := false,
        cpu_overload_flag := false,
        com1_buffer_overrun := false,
        com2_buffer_overrun := false,
        com3_buffer_overrun := false,
        usb_buffer_overrun := false,
        rf1_agc_flag := false,
        rf2_agc_flag := false,
        almanac_flag := false,
        position_solution_flag := false,
        position_fixed_flag := false,
        clock_steering_status_enabled := true,
        clock_model_flag := false,
        oemv_external_oscillator_flag := false,
        software_resource_flag := false,
        aux3_status_event_flag := false,
        aux2_status_event_flag := false,
        aux1_status_event_flag := false } := by
  have h3 := land_two_pow_eq_zero s 3
  have h21 := land_two_pow_eq_zero s 21
  norm_num at h3 h21
  refine ⟨?_, ?_, ?_⟩
  · simp [GetNovatelReceiverStatusMessage, h3]
  · simp [GetNovatelReceiverStatusMessage, h21]
  · simp only [GetNovatelReceiverStatusMessage]
    decide

/-- Instance of C2 at the mask `0x00200008` (bits 3 and 21 set): both inverted flags
are false there. -/
theorem receiver_status_inverted_flags_witness :
    (0x00200008 : Nat) < 2 ^ 32 ∧
    ((GetNovatelReceiverStatusMessage 0x00200008 default).antenna_powered = true ↔
      bit 0x00200008 3 = 0) ∧
    ((GetNovatelReceiverStatusMessage 0x00200008 default).clock_steering_status_enabled = true ↔
      bit 0x00200008 21 = 0) :=
  ⟨by decide, (receiver_status_inverted_flags 0x00200008 (by decide) default).1,
    (receiver_status_inverted_flags 0x00200008 (by decide) default).2.1⟩

/-! ## Extended solution status word -/

/-- C3: for every 32-bit mask `s`, `psuedorange_iono_correction` is decided by the 3-bit
sub-field `k = (s & 0x0E) >> 1` (bits 1 to 3 of `s`) only: 0 gives "Unknown",
1 "Klobuchar Broadcast", 2 "SBAS Broadcast", 3 "Multi-frequency Computed",
4 "PSRDiff Correction", 5 "Novatel Blended Iono Value", 6 and 7 "Unknown"; the result is
one of these six strings, and a mask with the same bits 1 to 3 gives the same result
whatever its other bits and whatever the output record held before. -/
theorem extended_solution_status_iono (s : Nat) (_hs : s < 2 ^ 32)
    (msg : NovatelExtendedSolutionStatus) :
    (0x0E &&& s) >>> 1 = s / 2 % 8 ∧
    (s / 2 % 8 = 0 →
      (GetExtendedSolutionStatusMessage s msg).psuedorange_iono_correction = "Unknown") ∧
    (s / 2 % 8 = 1 →
      (GetExtendedSolutionStatusMessage s msg).psuedorange_iono_correction =
        "Klobuchar Broadcast") ∧
    (s / 2 % 8 = 2 →
      (GetExtendedSolutionStatusMessage s msg).psuedorange_iono_correction =
        "SBAS Broadcast") ∧
    (s / 2 % 8 = 3 →
      (GetExtendedSolutionStatusMessage s msg).psuedorange_iono_correction =
        "Multi-frequency Computed") ∧
    (s / 2 % 8 = 4 →
      (GetExtendedSolutionStatusMessage s msg).psuedorange_iono_correction =
        "PSRDiff Correction") ∧
    (s / 2 % 8 = 5 →
      (GetExtendedSolutionStatusMessage s msg).psuedorange_iono_correction =
        "Novatel Blended Iono Value") ∧
    (s / 2 % 8 = 6 ∨ s / 2 % 8 = 7 →
      (GetExtendedSolutionStatusMessage s msg).psuedorange_iono_correction = "Unknown") ∧
    (GetExtendedSolutionStatusMessage s msg).psuedorange_iono_correction ∈
      ["Unknown", "Klobuchar Broadcast", "SBAS Broadcast", "Multi-frequency Computed",
        "PSRDiff Correction", "Novatel Blended Iono Value"] ∧
    (∀ (s' : Nat) (msg' : NovatelExtendedSolutionStatus), s' < 2 ^ 32 →
      s' / 2 % 8 = s / 2 % 8 →
      (GetExtendedSolutionStatusMessage s' msg').psuedorange_iono_correction =
        (GetExtendedSolutionStatusMessage s msg).psuedorange_iono_correction) ∧
    (GetExtendedSolutionStatusMessage 0x00000000 msg).psuedorange_iono_correction =
      "Unknown" ∧
    (GetExtendedSolutionStatusMessage 0x00000003 msg).psuedorange_iono_correction =
      "Klobuchar Broadcast" ∧
    (GetExtendedSolutionStatusMessage 0x0000000E msg).psuedorange_iono_correction =
      "Unknown" := by
  have key : ∀ (t : Nat) (m : NovatelExtendedSolutionStatus),
      (GetExtendedSolutionStatusMessage t m).psuedorange_iono_correction =
        (match t / 2 % 8 with
          | 0 => "Unknown"
          | 1 => "Klobuchar Broadcast"
          | 2 => "SBAS Broadcast"
          | 3 => "Multi-frequency Computed"
          | 4 => "PSRDiff Correction"
          | 5 => "Novatel Blended Iono Value"
          | _ => "Unknown") := by
    intro t m
    simp only [GetExtendedSolutionStatusMessage]
    rw [iono_subfield]
    split <;> simp_all
  have hk : s / 2 % 8 < 8 := Nat.mod_lt _ (by decide)
  refine ⟨iono_subfield s, ?_, ?_, ?_, ?_, ?_, ?_, ?_, ?_, ?_, ?_, ?_, ?_⟩
  · intro h; rw [key, h]
  · intro h; rw [key, h]
  · intro h; rw [key, h]
  · intro h; rw [key, h]
  · intro h; rw [key, h]
  · intro h; rw [key, h]
  · rintro (h | h) <;> rw [key, h]
  · rw [key]
    generalize s / 2 % 8 = k at hk
    interval_cases k <;> simp
  · intro s' msg' _ h
    rw [key, key, h]
  · rw [key]
  · rw [key]
  · rw [key]

/-- Instance of C3 at the mask `0xFFFFFFF5` (sub-field value 2, every bit outside the
sub-field set). -/
theorem extended_solution_status_iono_witness :
    (0xFFFFFFF5 : Nat) < 2 ^ 32 ∧
    (GetExtendedSolutionStatusMessage 0xFFFFFFF5 default).psuedorange_iono_correction =
      "SBAS Broadcast" :=
  ⟨by decide,
    (extended_solution_status_iono 0xFFFFFFF5 (by decide) default).2.2.2.1 (by decide)⟩

/-! ## Signal mask -/

/-- C4: for every 32-bit mask `m`, `GetSignalsUsed` stores `m` in `original_mask` and sets
`gps_L1`, `gps_L2`, `gps_L3`, `glonass_L1` and `glonass_L2` (`..._used_in_solution`) to
true (non-zero) exactly when bit 0, 1, 2, 4 and 5 of `m` respectively is 1; each field is
a function of its own bit alone; for `m = 0x00000023` the fields `gps_L1`, `gps_L2` and
`glonass_L2` are true and `gps_L3` and `glonass_L1` are false. -/
theorem signals_used_flags (m : Nat) (_hm : m < 2 ^ 32) (msg : NovatelSignalMask) :
    (GetSignalsUsed m msg).original_mask = m ∧
    ((GetSignalsUsed m msg).gps_L1_used_in_solution ≠ 0 ↔ bit m 0 = 1) ∧
    ((GetSignalsUsed m msg).gps_L2_used_in_solution ≠ 0 ↔ bit m 1 = 1) ∧
    ((GetSignalsUsed m msg).gps_L3_used_in_solution ≠ 0 ↔ bit m 2 = 1) ∧
    ((GetSignalsUsed m msg).glonass_L1_used_in_solution ≠ 0 ↔ bit m 4 = 1) ∧
    ((GetSignalsUsed m msg).glonass_L2_used_in_solution ≠ 0 ↔ bit m 5 = 1) ∧
    (∀ (m' : Nat) (msg' : NovatelSignalMask), m' < 2 ^ 32 →
      (bit m' 0 = bit m 0 → (GetSignalsUsed m' msg').gps_L1_used_in_solution =
        (GetSignalsUsed m msg).gps_L1_used_in_solution) ∧
      (bit m' 1 = bit m 1 → (GetSignalsUsed m' msg').gps_L2_used_in_solution =
        (GetSignalsUsed m msg).gps_L2_used_in_solution) ∧
      (bit m' 2 = bit m 2 → (GetSignalsUsed m' msg').gps_L3_used_in_solution =
        (GetSignalsUsed m msg).gps_L3_used_in_solution) ∧
      (bit m' 4 = bit m 4 → (GetSignalsUsed m' msg').glonass_L1_used_in_solution =
        (GetSignalsUsed m msg).glonass_L1_used_in_solution) ∧
      (bit m' 5 = bit m 5 → (GetSignalsUsed m' msg').glonass_L2_used_in_solution =
        (GetSignalsUsed m msg).glonass_L2_used_in_solution)) ∧
    (GetSignalsUsed 0x00000023 msg).gps_L1_used_in_solution ≠ 0 ∧
    (GetSignalsUsed 0x00000023 msg).gps_L2_used_in_solution ≠ 0 ∧
    (GetSignalsUsed 0x00000023 msg).gps_L3_used_in_solution = 0 ∧
    (GetSignalsUsed 0x00000023 msg).glonass_L1_used_in_solution = 0 ∧
    (GetSignalsUsed 0x00000023 msg).glonass_L2_used_in_solution ≠ 0 := by
  have f0 : ∀ (t : Nat) (r : NovatelSignalMask),
      (GetSignalsUsed t r).gps_L1_used_in_solution = 2 ^ 0 * bit t 0 :=
    fun t _ => toUInt8_land_two_pow t 0 (by decide)
  have f1 : ∀ (t : Nat) (r : NovatelSignalMask),
      (GetSignalsUsed t r).gps_L2_used_in_solution = 2 ^ 1 * bit t 1 :=
    fun t _ => toUInt8_land_two_pow t 1 (by decide)
  have f2 : ∀ (t : Nat) (r : NovatelSignalMask),
      (GetSignalsUsed t r).gps_L3_used_in_solution = 2 ^ 2 * bit t 2 :=
    fun t _ => toUInt8_land_two_pow t 2 (by decide)
  have f4 : ∀ (t : Nat) (r : NovatelSignalMask),
      (GetSignalsUsed t r).glonass_L1_used_in_solution = 2 ^ 4 * bit t 4 :=
    fun t _ => toUInt8_land_two_pow t 4 (by decide)
  have f5 : ∀ (t : Nat) (r : NovatelSignalMask),
      (GetSignalsUsed t r).glonass_L2_used_in_solution = 2 ^ 5 * bit t 5 :=
    fun t _ => toUInt8_land_two_pow t 5 (by decide)
  have b0 := bit_lt_two m 0
  have b1 := bit_lt_two m 1
  have b2 := bit_lt_two m 2
  have b4 := bit_lt_two m 4
  have b5 := bit_lt_two m 5
  refine ⟨rfl, ?_, ?_, ?_, ?_, ?_, ?_, ?_, ?_, ?_, ?_, ?_⟩
  · rw [f0]; omega
  · rw [f1]; omega
  · rw [f2]; omega
  · rw [f4]; omega
  · rw [f5]; omega
  · intro m' msg' _
    refine ⟨?_, ?_, ?_, ?_, ?_⟩ <;> intro h
    · rw [f0, f0, h]
    · rw [f1, f1, h]
    · rw [f2, f2, h]
    · rw [f4, f4, h]
    · rw [f5, f5, h]
  · rw [f0]; decide
  · rw [f1]; decide
  · rw [f2]; decide
  · rw [f4]; decide
  · rw [f5]; decide

/-- Instance of C4 at the mask `0xFFFFFFDF` (every bit but bit 5 set): `glonass_L2` is
the only flag that is false. -/
theorem signals_used_flags_witness :
    (0xFFFFFFDF : Nat) < 2 ^ 32 ∧
    (GetSignalsUsed 0xFFFFFFDF default).original_mask = 0xFFFFFFDF ∧
    ((GetSignalsUsed 0xFFFFFFDF default).glonass_L2_used_in_solution ≠ 0 ↔
      bit 0xFFFFFFDF 5 = 1) :=
  ⟨by decide, (signals_used_flags 0xFFFFFFDF (by decide) default).1,
    (signals_used_flags 0xFFFFFFDF (by decide) default).2.2.2.2.2.1⟩

/-! ## ASCII field parsers -/

/-- C5 (fails on the code): on the empty token the wide parsers `ParseInt32`,
`ParseUInt32`, `ParseFloat` and `ParseDouble` return true for every conversion function,
every base and every prior content of the output variable; with the conversions of
`swri_string_util`, which reject the empty token, the output variable keeps its prior
content and is not set to 0: a variable that held 7 still holds 7. -/
theorem wide_parsers_empty_token_keep_output :
    (∀ (ToInt32 : String → Int → Option Int) (value base : Int),
      (Ascii.ParseInt32 ToInt32 "" value base).1 = true) ∧
    (∀ (ToUInt32 : String → Int → Option Nat) (value : Nat) (base : Int),
      (Ascii.ParseUInt32 ToUInt32 "" value base).1 = true) ∧
    (∀ (F : Type) (ToFloat : String → Option F) (value : F),
      (Ascii.ParseFloat ToFloat "" value).1 = true) ∧
    (∀ (D : Type) (ToDouble : String → Option D) (value : D),
      (Ascii.ParseDouble ToDouble "" value).1 = true) ∧
    (∀ (value base : Int),
      Ascii.ParseInt32 swri_string_util.ToInt32 "" value base = (true, value)) ∧
    (∀ (value : Nat) (base : Int),
      Ascii.ParseUInt32 swri_string_util.ToUInt32 "" value base = (true, value)) ∧
    (∀ (F : Type) (strtof : String → Option F) (value : F),
      Ascii.ParseFloat (swri_string_util.ToFloat strtof) "" value = (true, value)) ∧
    (∀ (D : Type) (strtod : String → Option D) (value : D),
      Ascii.ParseDouble (swri_string_util.ToDouble strtod) "" value = (true, value)) ∧
    Ascii.ParseInt32 swri_string_util.ToInt32 "" 7 10 = (true, 7) ∧
    Ascii.ParseUInt32 swri_string_util.ToUInt32 "" 7 10 = (true, 7) := by
  have he : "".isEmpty = true := rfl
  refine ⟨?_, ?_, ?_, ?_, ?_, ?_, ?_, ?_, ?_, ?_⟩
  · intro f value base
    unfold Ascii.ParseInt32
    cases f "" base <;> simp [he]
  · intro f value base
    unfold Ascii.ParseUInt32
    cases f "" base <;> simp [he]
  · intro F f value
    unfold Ascii.ParseFloat
    cases f "" <;> simp [he]
  · intro D f value
    unfold Ascii.ParseDouble
    cases f "" <;> simp [he]
  · intro value base
    simp [Ascii.ParseInt32, swri_string_util.ToInt32, he]
  · intro value base
    simp [Ascii.ParseUInt32, swri_string_util.ToUInt32, he]
  · intro F strtof value
    simp [Ascii.ParseFloat, swri_string_util.ToFloat, he]
  · intro D strtod value
    simp [Ascii.ParseDouble, swri_string_util.ToDouble, he]
  · decide
  · decide

/-- C6: for the empty token, every base and every prior content of the output variable,
the narrow parsers `ParseInt16`, `ParseUInt16` and `ParseUInt8` return true and set the
output to 0, whatever the wide conversion would do with the token. -/
theorem narrow_parsers_empty_token (ToInt32 : String → Int → Option Int)
    (ToUInt32 : String → Int → Option Nat) (value16 : Int) (valueU16 valueU8 : Nat)
    (base : Int) :
    Ascii.ParseInt16 ToInt32 "" value16 base = (true, 0) ∧
    Ascii.ParseUInt16 ToUInt32 "" valueU16 base = (true, 0) ∧
    Ascii.ParseUInt8 ToUInt32 "" valueU8 base = (true, 0) := by
  have he : "".isEmpty = true := rfl
  refine ⟨?_, ?_, ?_⟩
  · simp [Ascii.ParseInt16, he]
  · simp [Ascii.ParseUInt16, he]
  · simp [Ascii.ParseUInt8, he]

/-- C7: for every non-empty token `t` and every base `b`, `ParseUInt16` succeeds exactly
when the wide unsigned conversion of `t` in base `b` succeeds with a value `v <= 65535`,
and on success the output equals `v`; with the conversion of `swri_string_util` and base
10, "65535" succeeds with value 65535 while "65536" and "70000" fail. -/
theorem ParseUInt16_range (ToUInt32 : String → Int → Option Nat) (t : String) (b : Int)
    (value : Nat) (ht : t ≠ "") :
    ((Ascii.ParseUInt16 ToUInt32 t value b).1 = true ↔
      ∃ v, ToUInt32 t b = some v ∧ v ≤ 65535) ∧
    (∀ v, ToUInt32 t b = some v → v ≤ 65535 →
      Ascii.ParseUInt16 ToUInt32 t value b = (true, v)) ∧
    Ascii.ParseUInt16 swri_string_util.ToUInt32 "65535" value 10 = (true, 65535) ∧
    (Ascii.ParseUInt16 swri_string_util.ToUInt32 "65536" value 10).1 = false ∧
    (Ascii.ParseUInt16 swri_string_util.ToUInt32 "70000" value 10).1 = false := by
  have he := isEmpty_eq_false_of_ne ht
  refine ⟨?_, ?_, ?_, ?_, ?_⟩
  · unfold Ascii.ParseUInt16
    cases h : ToUInt32 t b with
    | none => simp [he]
    | some tmp =>
      by_cases hr : tmp ≤ 65535 <;> simp [he, hr]
  · intro v hv hr
    have hm : toUInt16 v = v := Nat.mod_eq_of_lt (by omega)
    simp [Ascii.ParseUInt16, he, hv, hr, hm]
  · rfl
  · rfl
  · rfl

/-- Instance of C7 at the token "255" in base 10. -/
theorem ParseUInt16_range_witness :
    "255" ≠ "" ∧
    Ascii.ParseUInt16 swri_string_util.ToUInt32 "255" 9 10 = (true, 255) :=
  ⟨by decide,
    (ParseUInt16_range swri_string_util.ToUInt32 "255" 10 9 (by decide)).2.1 255
      (by decide) (by decide)⟩

/-- C8: for every non-empty token `t` and every base `b`, `ParseInt16` succeeds exactly
when the wide signed conversion of `t` in base `b` succeeds with a value `v` in
`[-32768, 32767]`, and on success the output equals `v`; with the conversion of
`swri_string_util` and base 10, "-32768" succeeds with value -32768 while "-32769"
fails. -/
theorem ParseInt16_range (ToInt32 : String → Int → Option Int) (t : String) (b : Int)
    (value : Int) (ht : t ≠ "") :
    ((Ascii.ParseInt16 ToInt32 t value b).1 = true ↔
      ∃ v, ToInt32 t b = some v ∧ -32768 ≤ v ∧ v ≤ 32767) ∧
    (∀ v, ToInt32 t b = some v → -32768 ≤ v → v ≤ 32767 →
      Ascii.ParseInt16 ToInt32 t value b = (true, v)) ∧
    Ascii.ParseInt16 swri_string_util.ToInt32 "-32768" value 10 = (true, -32768) ∧
    (Ascii.ParseInt16 swri_string_util.ToInt32 "-32769" value 10).1 = false := by
  have he := isEmpty_eq_false_of_ne ht
  refine ⟨?_, ?_, ?_, ?_⟩
  · unfold Ascii.ParseInt16
    cases h : ToInt32 t b with
    | none => simp [he]
    | some tmp =>
      by_cases hr : tmp ≤ 32767 ∧ tmp ≥ -32768
      · simp [he, hr]
      · simp only [he, hr]
        simp
        intro h1
        omega
  · intro v hv h1 h2
    have hm : toInt16 v = v := by
      unfold toInt16
      omega
    simp [Ascii.ParseInt16, he, hv, h1, h2, hm]
  · rfl
  · rfl

/-- Instance of C8 at the token "-1" in base 10. -/
theorem ParseInt16_range_witness :
    "-1" ≠ "" ∧
    Ascii.ParseInt16 swri_string_util.ToInt32 "-1" 9 10 = (true, -1) :=
  ⟨by decide,
    (ParseInt16_range swri_string_util.ToInt32 "-1" 10 9 (by decide)).2.1 (-1)
      (by decide) (by decide) (by decide)⟩

/-- C9: for every non-empty token `t` and every base `b`, `ParseUInt8` succeeds exactly
when the wide unsigned conversion of `t` in base `b` succeeds with a value `v <= 255`,
and on success the output equals `v`; a wide value of 255 is accepted and a wide value of
256 is rejected. -/
theorem ParseUInt8_range (ToUInt32 : String → Int → Option Nat) (t : String) (b : Int)
    (value : Nat) (ht : t ≠ "") :
    ((Ascii.ParseUInt8 ToUInt32 t value b).1 = true ↔
      ∃ v, ToUInt32 t b = some v ∧ v ≤ 255) ∧
    (∀ v, ToUInt32 t b = some v → v ≤ 255 →
      Ascii.ParseUInt8 ToUInt32 t value b = (true, v)) ∧
    (ToUInt32 t b = some 255 → Ascii.ParseUInt8 ToUInt32 t value b = (true, 255)) ∧
    (ToUInt32 t b = some 256 → (Ascii.ParseUInt8 ToUInt32 t value b).1 = false) := by
  have he := isEmpty_eq_false_of_ne ht
  refine ⟨?_, ?_, ?_, ?_⟩
  · unfold Ascii.ParseUInt8
    cases h : ToUInt32 t b with
    | none => simp [he]
    | some tmp =>
      by_cases hr : tmp ≤ 255 <;> simp [he, hr]
  · intro v hv hr
    have hm : toUInt8 v = v := Nat.mod_eq_of_lt (by omega)
    simp [Ascii.ParseUInt8, he, hv, hr, hm]
  · intro hv
    simp [Ascii.ParseUInt8, he, hv, toUInt8]
  · intro hv
    simp [Ascii.ParseUInt8, he, hv]

/-- Instance of C9 at the tokens "255" and "256" in base 10, with the conversion of
`swri_string_util`. -/
theorem ParseUInt8_range_witness :
    "255" ≠ "" ∧ "256" ≠ "" ∧
    Ascii.ParseUInt8 swri_string_util.ToUInt32 "255" 9 10 = (true, 255) ∧
    (Ascii.ParseUInt8 swri_string_util.ToUInt32 "256" 9 10).1 = false :=
  ⟨by decide, by decide,
    (ParseUInt8_range swri_string_util.ToUInt32 "255" 10 9 (by decide)).2.2.1 (by decide),
    (ParseUInt8_range swri_string_util.ToUInt32 "256" 10 9 (by decide)).2.2.2 (by decide)⟩

/-! ## Binary field decoders -/

/-- C10: round trip of the integer binary decoders: for every `int16_t` value `x16`,
`ParseInt16` of its 2-byte little-endian encoding returns `x16`; for every `uint16_t`
value `u16` the same holds for `ParseUInt16`; for every `int32_t` value `x32`,
`ParseInt32` of its 4-byte little-endian encoding returns `x32`; and for every `uint32_t`
value `u32`, `ParseUInt32` of its 4-byte little-endian encoding returns `u32`. Negative
values are encoded in two's complement. -/
theorem binary_integer_round_trip (x16 : Int) (u16 : Nat) (x32 : Int) (u32 : Nat)
    (hx16 : -2 ^ 15 ≤ x16 ∧ x16 < 2 ^ 15) (hu16 : u16 < 2 ^ 16)
    (hx32 : -2 ^ 31 ≤ x32 ∧ x32 < 2 ^ 31) (hu32 : u32 < 2 ^ 32) :
    Binary.ParseInt16 (encodeLittleEndianSigned 2 x16) = some x16 ∧
    Binary.ParseUInt16 (encodeLittleEndian 2 u16) = some u16 ∧
    Binary.ParseInt32 (encodeLittleEndianSigned 4 x32) = some x32 ∧
    Binary.ParseUInt32 (encodeLittleEndian 4 u32) = some u32 := by
  obtain ⟨h16a, h16b⟩ := hx16
  obtain ⟨h32a, h32b⟩ := hx32
  refine ⟨?_, ?_, ?_, ?_⟩
  · simp only [Binary.ParseInt16, encodeLittleEndianSigned, encodeLittleEndian, copy,
      fromBytes, Option.map, toSigned]
    simp
    omega
  · simp only [Binary.ParseUInt16, encodeLittleEndian, copy, fromBytes, Option.map]
    simp
    omega
  · simp only [Binary.ParseInt32, encodeLittleEndianSigned, encodeLittleEndian, copy,
      fromBytes, Option.map, toSigned]
    simp
    omega
  · simp only [Binary.ParseUInt32, encodeLittleEndian, copy, fromBytes, Option.map]
    simp
    omega

/-- Instance of C10 at the values -2, 0xBEEF, -2147483648 and 0xDEADBEEF. -/
theorem binary_integer_round_trip_witness :
    Binary.ParseInt16 (encodeLittleEndianSigned 2 (-2)) = some (-2) ∧
    Binary.ParseUInt16 (encodeLittleEndian 2 0xBEEF) = some 0xBEEF ∧
    Binary.ParseInt32 (encodeLittleEndianSigned 4 (-2147483648)) = some (-2147483648) ∧
    Binary.ParseUInt32 (encodeLittleEndian 4 0xDEADBEEF) = some 0xDEADBEEF :=
  binary_integer_round_trip (-2) 0xBEEF (-2147483648) 0xDEADBEEF
    (by decide) (by decide) (by decide) (by decide)

/-! ## Failure of the ASCII field parsers -/

/-- C11: an ASCII parser fails only on a non-empty token: for each of `ParseInt16`,
`ParseInt32`, `ParseUInt8`, `ParseUInt16`, `ParseUInt32`, `ParseFloat` and `ParseDouble`,
every token and every base, if the parser returns false then the token is non-empty and
the wide conversion either rejected the token or, for the three narrow parsers, produced
a value outside the range of the narrow type. -/
theorem ascii_parsers_fail_only_on_nonempty (t : String) (b : Int) :
    (∀ (ToInt32 : String → Int → Option Int) (value : Int),
      (Ascii.ParseInt16 ToInt32 t value b).1 = false →
      t ≠ "" ∧ (ToInt32 t b = none ∨ ∃ v, ToInt32 t b = some v ∧ (v < -32768 ∨ 32767 < v))) ∧
    (∀ (ToInt32 : String → Int → Option Int) (value : Int),
      (Ascii.ParseInt32 ToInt32 t value b).1 = false → t ≠ "" ∧ ToInt32 t b = none) ∧
    (∀ (ToUInt32 : String → Int → Option Nat) (value : Nat),
      (Ascii.ParseUInt8 ToUInt32 t value b).1 = false →
      t ≠ "" ∧ (ToUInt32 t b = none ∨ ∃ v, ToUInt32 t b = some v ∧ 255 < v)) ∧
    (∀ (ToUInt32 : String → Int → Option Nat) (value : Nat),
      (Ascii.ParseUInt16 ToUInt32 t value b).1 = false →
      t ≠ "" ∧ (ToUInt32 t b = none ∨ ∃ v, ToUInt32 t b = some v ∧ 65535 < v)) ∧
    (∀ (ToUInt32 : String → Int → Option Nat) (value : Nat),
      (Ascii.ParseUInt32 ToUInt32 t value b).1 = false → t ≠ "" ∧ ToUInt32 t b = none) ∧
    (∀ (F : Type) (ToFloat : String → Option F) (value : F),
      (Ascii.ParseFloat ToFloat t value).1 = false → t ≠ "" ∧ ToFloat t = none) ∧
    (∀ (D : Type) (ToDouble : String → Option D) (value : D),
      (Ascii.ParseDouble ToDouble t value).1 = false → t ≠ "" ∧ ToDouble t = none) := by
  refine ⟨?_, ?_, ?_, ?_, ?_, ?_, ?_⟩
  · intro f value
    unfold Ascii.ParseInt16
    cases he : t.isEmpty
    · cases h : f t b with
      | none => intro _; exact ⟨ne_of_isEmpty_eq_false he, Or.inl rfl⟩
      | some tmp =>
        by_cases hr : tmp ≤ 32767 ∧ tmp ≥ -32768
        · simp [hr]
        · intro _
          refine ⟨ne_of_isEmpty_eq_false he, Or.inr ⟨tmp, rfl, ?_⟩⟩
          omega
    · simp
  · intro f value
    unfold Ascii.ParseInt32
    cases h : f t b with
    | none => intro he; exact ⟨ne_of_isEmpty_eq_false he, rfl⟩
    | some number => simp
  · intro f value
    unfold Ascii.ParseUInt8
    cases he : t.isEmpty
    · cases h : f t b with
      | none => intro _; exact ⟨ne_of_isEmpty_eq_false he, Or.inl rfl⟩
      | some tmp =>
        by_cases hr : tmp ≤ 255
        · simp [hr]
        · intro _
          refine ⟨ne_of_isEmpty_eq_false he, Or.inr ⟨tmp, rfl, ?_⟩⟩
          omega
    · simp
  · intro f value
    unfold Ascii.ParseUInt16
    cases he : t.isEmpty
    · cases h : f t b with
      | none => intro _; exact ⟨ne_of_isEmpty_eq_false he, Or.inl rfl⟩
      | some tmp =>
        by_cases hr : tmp ≤ 65535
        · simp [hr]
        · intro _
          refine ⟨ne_of_isEmpty_eq_false he, Or.inr ⟨tmp, rfl, ?_⟩⟩
          omega
    · simp
  · intro f value
    unfold Ascii.ParseUInt32
    cases h : f t b with
    | none => intro he; exact ⟨ne_of_isEmpty_eq_false he, rfl⟩
    | some number => simp
  · intro F f value
    unfold Ascii.ParseFloat
    cases h : f t with
    | none => intro he; exact ⟨ne_of_isEmpty_eq_false he, rfl⟩
    | some number => simp
  · intro D f value
    unfold Ascii.ParseDouble
    cases h : f t with
    | none => intro he; exact ⟨ne_of_isEmpty_eq_false he, rfl⟩
    | some number => simp

/-- Instance of C11 at the token "70000" in base 10, on which `ParseUInt16` fails with
the conversion of `swri_string_util`. -/
theorem ascii_parsers_fail_only_on_nonempty_witness :
    (Ascii.ParseUInt16 swri_string_util.ToUInt32 "70000" 9 10).1 = false ∧
    "70000" ≠ "" ∧
    (swri_string_util.ToUInt32 "70000" 10 = none ∨
      ∃ v, swri_string_util.ToUInt32 "70000" 10 = some v ∧ 65535 < v) :=
  ⟨by decide,
    (ascii_parsers_fail_only_on_nonempty "70000" 10).2.2.2.1 swri_string_util.ToUInt32 9
      (by decide)⟩

/-- C12: for every 32-bit mask `s`, `GetExtendedSolutionStatusMessage` stores `s`
unchanged in `original_mask` and sets `advance_rtk_verified` to true (non-zero) exactly
when bit 0 of `s` is 1, whatever the other bits of `s` and the prior content of the
record; for `s = 0x00000000` it is false. -/
theorem extended_solution_status_rtk (s : Nat) (_hs : s < 2 ^ 32)
    (msg : NovatelExtendedSolutionStatus) :
    (GetExtendedSolutionStatusMessage s msg).original_mask = s ∧
    ((GetExtendedSolutionStatusMessage s msg).advance_rtk_verified ≠ 0 ↔ bit s 0 = 1) ∧
    (∀ (s' : Nat) (msg' : NovatelExtendedSolutionStatus), s' < 2 ^ 32 →
      bit s' 0 = bit s 0 →
      (GetExtendedSolutionStatusMessage s' msg').advance_rtk_verified =
        (GetExtendedSolutionStatusMessage s msg).advance_rtk_verified) ∧
    (GetExtendedSolutionStatusMessage 0x00000000 msg).advance_rtk_verified = 0 := by
  have f0 : ∀ (t : Nat) (m : NovatelExtendedSolutionStatus),
      (GetExtendedSolutionStatusMessage t m).advance_rtk_verified = 2 ^ 0 * bit t 0 := by
    intro t m
    rw [(ext_status_fields t m).2, Nat.and_comm]
    exact toUInt8_land_two_pow t 0 (by decide)
  have b0 := bit_lt_two s 0
  refine ⟨(ext_status_fields s msg).1, ?_, ?_, ?_⟩
  · rw [f0]; omega
  · intro s' msg' _ h
    rw [f0, f0, h]
  · rw [f0]; decide

/-- Instance of C12 at the mask `0xFFFFFFFE` (every bit but bit 0 set). -/
theorem extended_solution_status_rtk_witness :
    (0xFFFFFFFE : Nat) < 2 ^ 32 ∧
    (GetExtendedSolutionStatusMessage 0xFFFFFFFE default).original_mask = 0xFFFFFFFE ∧
    ((GetExtendedSolutionStatusMessage 0xFFFFFFFE default).advance_rtk_verified ≠ 0 ↔
      bit 0xFFFFFFFE 0 = 1) :=
  ⟨by decide, (extended_solution_status_rtk 0xFFFFFFFE (by decide) default).1,
    (extended_solution_status_rtk 0xFFFFFFFE (by decide) default).2.1⟩

/-! ## Unused bits and repeated decoding -/

/-- C13: unused bits of the receiver status word are ignored: two 32-bit masks that agree
on the 23 table bits (0, 1, 2, 3, 5, 6, 7, 8, 9, 10, 11, 15, 17, 18, 19, 20, 21, 22, 23,
24, 29, 30, 31), whatever their bits 4, 12, 13, 14, 16, 25, 26, 27 and 28, give the same
23 flag values; the two records differ only in `original_status_code`, which equals the
input mask. -/
theorem receiver_status_unused_bits (s s' : Nat) (_hs : s < 2 ^ 32) (_hs' : s' < 2 ^ 32)
    (r r' : NovatelReceiverStatus)
    (h : ∀ k ∈ [0, 1, 2, 3, 5, 6, 7, 8, 9, 10, 11, 15, 17, 18, 19, 20, 21, 22, 23, 24, 29,
      30, 31], bit s k = bit s' k) :
    GetNovatelReceiverStatusMessage s r =
      { GetNovatelReceiverStatusMessage s' r' with original_status_code := s } ∧
    (GetNovatelReceiverStatusMessage s r).original_status_code = s ∧
    (GetNovatelReceiverStatusMessage s' r').original_status_code = s' := by
  refine ⟨?_, rfl, rfl⟩
  rw [receiver_status_by_bits s r, receiver_status_by_bits s' r']
  simp only [List.mem_cons, List.mem_singleton, forall_eq_or_imp, forall_eq] at h
  simp only [NovatelReceiverStatus.mk.injEq, true_and]
  simp [h]

/-- Instance of C13 at the masks `0x00000001` and `0x1E017011` (bit 0 and all nine
unused bits set). -/
theorem receiver_status_unused_bits_witness :
    GetNovatelReceiverStatusMessage 0x00000001 default =
      { GetNovatelReceiverStatusMessage 0x1E017011 default with
        original_status_code := 0x00000001 } :=
  (receiver_status_unused_bits 0x00000001 0x1E017011 (by decide) (by decide) default default
    (by decide)).1

/-- C14: re-decoding is idempotent: for every mask and any two prior contents of the
output record, each of `GetNovatelReceiverStatusMessage`,
`GetExtendedSolutionStatusMessage` and `GetSignalsUsed` leaves the output record in the
same state, and decoding the same mask again into the decoded record leaves it
unchanged. -/
theorem decoders_idempotent (s : Nat) (_hs : s < 2 ^ 32)
    (r1 r2 : NovatelReceiverStatus) (e1 e2 : NovatelExtendedSolutionStatus)
    (m1 m2 : NovatelSignalMask) :
    GetNovatelReceiverStatusMessage s r1 = GetNovatelReceiverStatusMessage s r2 ∧
    GetNovatelReceiverStatusMessage s (GetNovatelReceiverStatusMessage s r1) =
      GetNovatelReceiverStatusMessage s r1 ∧
    GetExtendedSolutionStatusMessage s e1 = GetExtendedSolutionStatusMessage s e2 ∧
    GetExtendedSolutionStatusMessage s (GetExtendedSolutionStatusMessage s e1) =
      GetExtendedSolutionStatusMessage s e1 ∧
    GetSignalsUsed s m1 = GetSignalsUsed s m2 ∧
    GetSignalsUsed s (GetSignalsUsed s m1) = GetSignalsUsed s m1 := by
  have hext : ∀ a b : NovatelExtendedSolutionStatus,
      GetExtendedSolutionStatusMessage s a = GetExtendedSolutionStatusMessage s b := by
    intro a b
    unfold GetExtendedSolutionStatusMessage
    rfl
  exact ⟨rfl, rfl, hext _ _, hext _ _, rfl, rfl⟩

/-- Instance of C14 at the mask `0x00000003`, decoded into an empty record and into the
record decoded from `0xFFFFFFFF`. -/
theorem decoders_idempotent_witness :
    GetExtendedSolutionStatusMessage 0x00000003 default =
      GetExtendedSolutionStatusMessage 0x00000003
        (GetExtendedSolutionStatusMessage 0xFFFFFFFF default) ∧
    GetSignalsUsed 0x00000003 default =
      GetSignalsUsed 0x00000003 (GetSignalsUsed 0xFFFFFFFF default) :=
  ⟨(decoders_idempotent 0x00000003 (by decide) default default default
      (GetExtendedSolutionStatusMessage 0xFFFFFFFF default) default default).2.2.1,
    (decoders_idempotent 0x00000003 (by decide) default default default default default
      (GetSignalsUsed 0xFFFFFFFF default)).2.2.2.2.1⟩

/-! ## Narrow parsers: output on failure, and widening -/

/-- C16: no garbage on failure for the narrow parsers: whenever `ParseInt16`,
`ParseUInt16` or `ParseUInt8` returns false, the output value is 0, whatever the output
variable held before the call and whatever wide value was parsed; `ParseUInt16` of
"70000" leaves 0, not 70000 mod 65536 = 4464. -/
theorem narrow_parsers_zero_on_failure (t : String) (b : Int) :
    (∀ (ToInt32 : String → Int → Option Int) (value : Int),
      (Ascii.ParseInt16 ToInt32 t value b).1 = false →
      (Ascii.ParseInt16 ToInt32 t value b).2 = 0) ∧
    (∀ (ToUInt32 : String → Int → Option Nat) (value : Nat),
      (Ascii.ParseUInt16 ToUInt32 t value b).1 = false →
      (Ascii.ParseUInt16 ToUInt32 t value b).2 = 0) ∧
    (∀ (ToUInt32 : String → Int → Option Nat) (value : Nat),
      (Ascii.ParseUInt8 ToUInt32 t value b).1 = false →
      (Ascii.ParseUInt8 ToUInt32 t value b).2 = 0) ∧
    (∀ (value : Nat),
      Ascii.ParseUInt16 swri_string_util.ToUInt32 "70000" value 10 = (false, 0)) := by
  refine ⟨?_, ?_, ?_, fun _ => rfl⟩
  · intro f value
    unfold Ascii.ParseInt16
    cases he : t.isEmpty
    · cases h : f t b with
      | none => simp
      | some tmp => by_cases hr : tmp ≤ 32767 ∧ tmp ≥ -32768 <;> simp [hr]
    · simp
  · intro f value
    unfold Ascii.ParseUInt16
    cases he : t.isEmpty
    · cases h : f t b with
      | none => simp
      | some tmp => by_cases hr : tmp ≤ 65535 <;> simp [hr]
    · simp
  · intro f value
    unfold Ascii.ParseUInt8
    cases he : t.isEmpty
    · cases h : f t b with
      | none => simp
      | some tmp => by_cases hr : tmp ≤ 255 <;> simp [hr]
    · simp

/-- Instance of C16 at the token "-40000" in base 10, on which `ParseInt16` fails with
the conversion of `swri_string_util`. -/
theorem narrow_parsers_zero_on_failure_witness :
    (Ascii.ParseInt16 swri_string_util.ToInt32 "-40000" 9 10).1 = false ∧
    (Ascii.ParseInt16 swri_string_util.ToInt32 "-40000" 9 10).2 = 0 :=
  ⟨by decide,
    (narrow_parsers_zero_on_failure "-40000" 10).1 swri_string_util.ToInt32 9 (by decide)⟩

/-- C18: width monotonicity of the ASCII integer parsers: for every non-empty token `t`
and every base `b`, if `ParseUInt8` succeeds with value `v` then `ParseUInt16` succeeds
with the same `v`; if `ParseUInt16` succeeds with `v` then `ParseUInt32` succeeds with
the same `v`; and if `ParseInt16` succeeds with `v` then `ParseInt32` succeeds with the
same `v`. The prior contents of the output variables are arbitrary. -/
theorem ascii_width_monotone (ToUInt32 : String → Int → Option Nat)
    (ToInt32 : String → Int → Option Int) (t : String) (b : Int) (ht : t ≠ "") :
    (∀ (v value value' : Nat), Ascii.ParseUInt8 ToUInt32 t value b = (true, v) →
      Ascii.ParseUInt16 ToUInt32 t value' b = (true, v)) ∧
    (∀ (v value value' : Nat), Ascii.ParseUInt16 ToUInt32 t value b = (true, v) →
      Ascii.ParseUInt32 ToUInt32 t value' b = (true, v)) ∧
    (∀ (v value value' : Int), Ascii.ParseInt16 ToInt32 t value b = (true, v) →
      Ascii.ParseInt32 ToInt32 t value' b = (true, v)) := by
  have he := isEmpty_eq_false_of_ne ht
  refine ⟨?_, ?_, ?_⟩
  · intro v value value'
    unfold Ascii.ParseUInt8 Ascii.ParseUInt16
    cases h : ToUInt32 t b with
    | none => simp [he]
    | some tmp =>
      by_cases hr : tmp ≤ 255
      · have hr' : tmp ≤ 65535 := by omega
        have h8 : toUInt8 tmp = tmp := Nat.mod_eq_of_lt (by omega)
        have h16 : toUInt16 tmp = tmp := Nat.mod_eq_of_lt (by omega)
        simp [he, hr, hr', h8, h16]
      · simp [he, hr]
  · intro v value value'
    unfold Ascii.ParseUInt16 Ascii.ParseUInt32
    cases h : ToUInt32 t b with
    | none => simp [he]
    | some tmp =>
      by_cases hr : tmp ≤ 65535
      · have h16 : toUInt16 tmp = tmp := Nat.mod_eq_of_lt (by omega)
        simp [he, hr, h16]
      · simp [he, hr]
  · intro v value value'
    unfold Ascii.ParseInt16 Ascii.ParseInt32
    cases h : ToInt32 t b with
    | none => simp [he]
    | some tmp =>
      by_cases hr : tmp ≤ 32767 ∧ tmp ≥ -32768
      · have h16 : toInt16 tmp = tmp := by
          unfold toInt16
          omega
        simp [he, hr, h16]
      · simp [he, hr]

/-- Instance of C18 at the token "200" in base 10 with the conversions of
`swri_string_util`. -/
theorem ascii_width_monotone_witness :
    "200" ≠ "" ∧
    Ascii.ParseUInt8 swri_string_util.ToUInt32 "200" 9 10 = (true, 200) ∧
    Ascii.ParseUInt16 swri_string_util.ToUInt32 "200" 7 10 = (true, 200) :=
  ⟨by decide, by decide,
    (ascii_width_monotone swri_string_util.ToUInt32 swri_string_util.ToInt32 "200" 10
      (by decide)).1 200 9 7 (by decide)⟩

/-! ## Binary field decoders: floating point and buffer bounds -/

/-- C15: round trip of the floating-point binary decoders: for every single-precision
value, given by its bit pattern `x32` (NaN and infinities included), `ParseFloat` of the
4-byte little-endian encoding returns the value with the same bit pattern, and for every
double-precision value, given by its bit pattern `x64`, `ParseDouble` of the 8-byte
little-endian encoding returns the value with the same bit pattern. -/
theorem binary_float_round_trip (x32 x64 : Nat) (h32 : x32 < 2 ^ 32) (h64 : x64 < 2 ^ 64) :
    Binary.ParseFloat (encodeLittleEndian 4 x32) = some x32 ∧
    Binary.ParseDouble (encodeLittleEndian 8 x64) = some x64 := by
  refine ⟨?_, ?_⟩
  · simp only [Binary.ParseFloat, encodeLittleEndian, copy, fromBytes, Option.map]
    simp
    omega
  · simp only [Binary.ParseDouble, encodeLittleEndian, copy, fromBytes, Option.map]
    simp
    omega

/-- Instance of C15 at the single-precision quiet NaN `0x7FC00000` and the
double-precision negative infinity `0xFFF0000000000000`. -/
theorem binary_float_round_trip_witness :
    Binary.ParseFloat (encodeLittleEndian 4 0x7FC00000) = some 0x7FC00000 ∧
    Binary.ParseDouble (encodeLittleEndian 8 0xFFF0000000000000) =
      some 0xFFF0000000000000 :=
  binary_float_round_trip 0x7FC00000 0xFFF0000000000000 (by decide) (by decide)

/-- C17: for every buffer holding at least `N` bytes (2 for `ParseInt16` and
`ParseUInt16`, 4 for `ParseInt32`, `ParseUInt32` and `ParseFloat`, 8 for `ParseDouble`),
the binary decoder returns a value (no byte is read past the end of the buffer), and that
value is the decode of the first `N` bytes alone. -/
theorem binary_decoders_in_bounds (buffer : List Byte) :
    (2 ≤ buffer.length →
      (∃ v, Binary.ParseInt16 buffer = some v) ∧
      Binary.ParseInt16 buffer = Binary.ParseInt16 (buffer.take 2)) ∧
    (2 ≤ buffer.length →
      (∃ v, Binary.ParseUInt16 buffer = some v) ∧
      Binary.ParseUInt16 buffer = Binary.ParseUInt16 (buffer.take 2)) ∧
    (4 ≤ buffer.length →
      (∃ v, Binary.ParseInt32 buffer = some v) ∧
      Binary.ParseInt32 buffer = Binary.ParseInt32 (buffer.take 4)) ∧
    (4 ≤ buffer.length →
      (∃ v, Binary.ParseUInt32 buffer = some v) ∧
      Binary.ParseUInt32 buffer = Binary.ParseUInt32 (buffer.take 4)) ∧
    (4 ≤ buffer.length →
      (∃ v, Binary.ParseFloat buffer = some v) ∧
      Binary.ParseFloat buffer = Binary.ParseFloat (buffer.take 4)) ∧
    (8 ≤ buffer.length →
      (∃ v, Binary.ParseDouble buffer = some v) ∧
      Binary.ParseDouble buffer = Binary.ParseDouble (buffer.take 8)) := by
  refine ⟨?_, ?_, ?_, ?_, ?_, ?_⟩ <;> intro h
  · simp [Binary.ParseInt16, copy_eq_take _ _ h, copy_take _ _ h]
  · simp [Binary.ParseUInt16, copy_eq_take _ _ h, copy_take _ _ h]
  · simp [Binary.ParseInt32, copy_eq_take _ _ h, copy_take _ _ h]
  · simp [Binary.ParseUInt32, copy_eq_take _ _ h, copy_take _ _ h]
  · simp [Binary.ParseFloat, copy_eq_take _ _ h, copy_take _ _ h]
  · simp [Binary.ParseDouble, copy_eq_take _ _ h, copy_take _ _ h]

/-- Instance of C17 at the three-byte buffer `[0xFE, 0xFF, 0x7B]`: `ParseInt16` reads -2
from its first two bytes. -/
theorem binary_decoders_in_bounds_witness :
    (∃ v, Binary.ParseInt16 [0xFE, 0xFF, 0x7B] = some v) ∧
    Binary.ParseInt16 [0xFE, 0xFF, 0x7B] = Binary.ParseInt16 [0xFE, 0xFF] :=
  (binary_decoders_in_bounds [0xFE, 0xFF, 0x7B]).1 (by decide)

/-! ## Time and angle conversions -/

/-- C19: `UtcFloatToSeconds` converts an hhmmss.ss time of day to seconds: for all natural
numbers `h` and `m` with `m < 100` and every rational `s` with `0 <= s < 100` such that
`10000*h + 100*m + s < 2^32`, the result is `3600*h + 60*m + s` in exact arithmetic; the
variables `hours` and `minutes` of the code are `h` and `m`, the conversion to `uint32_t`
is the integer part of the argument, and no unsigned 32-bit intermediate wraps around. -/
theorem UtcFloatToSeconds_exact (h m : Nat) (s : ℚ) (hm : m < 100) (hs0 : 0 ≤ s)
    (hs1 : s < 100) (hlt : (10000 * h + 100 * m : ℚ) + s < 2 ^ 32) :
    UtcFloatToSeconds (10000 * h + 100 * m + s) = 3600 * h + 60 * m + s ∧
    ((castUInt32 (10000 * h + 100 * m + s) : Nat) : Int) = ⌊(10000 * h + 100 * m : ℚ) + s⌋ ∧
    castUInt32 (10000 * h + 100 * m + s) / 10000 = h ∧
    subUInt32 (castUInt32 (10000 * h + 100 * m + s)) (mulUInt32 h 10000) / 100 = m ∧
    h * 10000 + m * 100 ≤ castUInt32 (10000 * h + 100 * m + s) ∧
    h * 10000 + m * 100 < 2 ^ 32 ∧
    h * 3600 + m * 60 < 2 ^ 32 := by
  have hcast : (10000 * h + 100 * m : ℚ) = ((10000 * h + 100 * m : ℕ) : ℚ) := by
    push_cast; ring
  have hlt' : ((10000 * h + 100 * m : ℕ) : ℚ) + s < 2 ^ 32 := by rw [← hcast]; exact hlt
  obtain ⟨hc, hb, hi⟩ := castUInt32_nat_add (10000 * h + 100 * m) s hs0 hlt'
  have hf0 : 0 ≤ ⌊s⌋ := Int.floor_nonneg.mpr hs0
  have hf1 : ⌊s⌋ < 100 := Int.floor_lt.mpr (by exact_mod_cast hs1)
  have hk : Int.toNat ⌊s⌋ < 100 := by omega
  rw [← hcast] at hi
  generalize Int.toNat ⌊s⌋ = k at hc hb hk
  have hhours : (10000 * h + 100 * m + k) / 10000 = h := by omega
  have hmul : mulUInt32 h 10000 = h * 10000 := by
    unfold mulUInt32; apply Nat.mod_eq_of_lt; omega
  have hsub : subUInt32 (10000 * h + 100 * m + k) (h * 10000) = 100 * m + k := by
    unfold subUInt32
    rw [Nat.mod_eq_of_lt (by omega : h * 10000 < 2 ^ 32)]
    omega
  have hmin : (100 * m + k) / 100 = m := by omega
  have hmul2 : mulUInt32 m 100 = m * 100 := by
    unfold mulUInt32; apply Nat.mod_eq_of_lt; omega
  have hadd : addUInt32 (h * 10000) (m * 100) = h * 10000 + m * 100 := by
    unfold addUInt32; apply Nat.mod_eq_of_lt; omega
  have hmul3 : mulUInt32 h 3600 = h * 3600 := by
    unfold mulUInt32; apply Nat.mod_eq_of_lt; omega
  have hmul4 : mulUInt32 m 60 = m * 60 := by
    unfold mulUInt32; apply Nat.mod_eq_of_lt; omega
  have hadd2 : addUInt32 (h * 3600) (m * 60) = h * 3600 + m * 60 := by
    unfold addUInt32; apply Nat.mod_eq_of_lt; omega
  refine ⟨?_, hi, ?_, ?_, ?_, ?_, ?_⟩
  · unfold UtcFloatToSeconds
    simp only [hcast, hc, hhours, hmul, hsub, hmin, hmul2, hadd, hmul3, hmul4, hadd2]
    push_cast
    ring
  · rw [hcast, hc, hhours]
  · rw [hcast, hc, hmul, hsub, hmin]
  · rw [hcast, hc]; omega
  · omega
  · omega

/-- Instance of C19 at 12:34:56.78, written `123456.78`: 45296.78 seconds. -/
theorem UtcFloatToSeconds_exact_witness :
    UtcFloatToSeconds (10000 * ((12 : ℕ) : ℚ) + 100 * ((34 : ℕ) : ℚ) + 5678 / 100) =
      3600 * ((12 : ℕ) : ℚ) + 60 * ((34 : ℕ) : ℚ) + 5678 / 100 :=
  (UtcFloatToSeconds_exact 12 34 (5678 / 100) (by decide) (by norm_num) (by norm_num)
    (by norm_num)).1

/-- C20 (fails on the code as stated): at the double `4530.5`, that is `d = 45` and
`m = 30.5` within the bounds of the claim, `ConvertDmsToDegrees` returns the double
`6404728532570385 / 2 ^ 47`, which is not `45 + 30.5 / 60`: the division by 60 and the
final addition are rounded. -/
theorem ConvertDmsToDegrees_not_exact :
    (0 : ℚ) ≤ 61 / 2 ∧ (61 / 2 : ℚ) < 100 ∧ (100 * ((45 : ℕ) : ℚ) + 61 / 2 < 2 ^ 32) ∧
    ConvertDmsToDegrees (100 * ((45 : ℕ) : ℚ) + 61 / 2) = 6404728532570385 / 2 ^ 47 ∧
    ConvertDmsToDegrees (100 * ((45 : ℕ) : ℚ) + 61 / 2) ≠ ((45 : ℕ) : ℚ) + 61 / 2 / 60 := by
  have hv : ConvertDmsToDegrees (100 * ((45 : ℕ) : ℚ) + 61 / 2) =
      6404728532570385 / 2 ^ 47 := by
    have hc : castUInt32 (100 * ((45 : ℕ) : ℚ) + 61 / 2) = 4530 := by
      unfold castUInt32
      have : ⌊(100 * ((45 : ℕ) : ℚ) + 61 / 2)⌋ = 4530 := by
        rw [Int.floor_eq_iff]; constructor <;> norm_num
      rw [this]; rfl
    have hm : mulUInt32 45 100 = 4500 := rfl
    have r1 : roundDouble (61 / 2) = 61 / 2 := by
      rw [roundDouble_eq (61 / 2) 4 8584986789675008 (by norm_num) (by norm_num)
        (by norm_num) (by norm_num) (by norm_num)]
      norm_num
    have r2 : roundDouble (61 / 2 / 60) = 4578659621160004 / 2 ^ 53 := by
      rw [roundDouble_eq (61 / 2 / 60) (-1) 4578659621160004 (by norm_num) (by norm_num)
        (by norm_num) (by norm_num) (by norm_num)]
      norm_num
    have r3 : roundDouble (45 + 4578659621160004 / 2 ^ 53) = 6404728532570385 / 2 ^ 47 := by
      rw [roundDouble_eq (45 + 4578659621160004 / 2 ^ 53) 5 6404728532570385 (by norm_num)
        (by norm_num) (by norm_num) (by norm_num) (by norm_num)]
      norm_num
    unfold ConvertDmsToDegrees
    simp only [hc]
    have hd : (4530 : Nat) / 100 = 45 := rfl
    rw [hd, hm]
    have hs : (100 * ((45 : ℕ) : ℚ) + 61 / 2) - ((4500 : ℕ) : ℚ) = 61 / 2 := by norm_num
    rw [hs, r1, r2]
    have hs2 : ((45 : ℕ) : ℚ) + 4578659621160004 / 2 ^ 53 =
        45 + 4578659621160004 / 2 ^ 53 := by norm_num
    rw [hs2, r3]
  refine ⟨by norm_num, by norm_num, by norm_num, hv, ?_⟩
  rw [hv]
  norm_num

/-- C20 (amended): for every natural number `d` and every rational `m` with
`0 <= m < 100` such that `100*d + m < 2^32`, `ConvertDmsToDegrees(100*d + m)` is
`d + m/60` up to the rounding of its operations on doubles: it differs from `d + m/60` by
at most `2^-27`, and it is the rounded sum of `d` and the rounded quotient by 60 of the
minutes; the whole-degree part `whole_degrees` of the code is the integer part of the
input divided by 100, that is `d`, and `whole_degrees * 100` does not wrap around. -/
theorem ConvertDmsToDegrees_rounded (d : Nat) (m : ℚ) (hm0 : 0 ≤ m) (hm1 : m < 100)
    (hlt : (100 * d : ℚ) + m < 2 ^ 32) :
    |ConvertDmsToDegrees (100 * d + m) - (d + m / 60)| ≤ 1 / 2 ^ 27 ∧
    ConvertDmsToDegrees (100 * d + m) =
      roundDouble ((d : ℚ) + roundDouble (roundDouble m / 60)) ∧
    ((castUInt32 (100 * d + m) : Nat) : Int) = ⌊(100 * d : ℚ) + m⌋ ∧
    castUInt32 (100 * d + m) / 100 = d ∧
    d * 100 ≤ castUInt32 (100 * d + m) ∧
    d * 100 < 2 ^ 32 := by
  have hcast : (100 * d : ℚ) = ((100 * d : ℕ) : ℚ) := by push_cast; ring
  have hlt' : ((100 * d : ℕ) : ℚ) + m < 2 ^ 32 := by rw [← hcast]; exact hlt
  obtain ⟨hc, hb, hi⟩ := castUInt32_nat_add (100 * d) m hm0 hlt'
  have hf0 : 0 ≤ ⌊m⌋ := Int.floor_nonneg.mpr hm0
  have hf1 : ⌊m⌋ < 100 := Int.floor_lt.mpr (by exact_mod_cast hm1)
  have hk : Int.toNat ⌊m⌋ < 100 := by omega
  rw [← hcast] at hi
  generalize Int.toNat ⌊m⌋ = k at hc hb hk
  have hdeg : (100 * d + k) / 100 = d := by omega
  have hmul : mulUInt32 d 100 = d * 100 := by
    unfold mulUInt32; apply Nat.mod_eq_of_lt; omega
  have hform : ConvertDmsToDegrees (100 * d + m) =
      roundDouble ((d : ℚ) + roundDouble (roundDouble m / 60)) := by
    unfold ConvertDmsToDegrees
    simp only [hcast, hc, hdeg, hmul]
    have hs : ((100 * d : ℕ) : ℚ) + m - ((d * 100 : ℕ) : ℚ) = m := by push_cast; ring
    rw [hs]
  refine ⟨?_, hform, hi, ?_, ?_, ?_⟩
  · rw [hform]
    have hd : (d : ℚ) < 42949673 := by
      have : (100 : ℚ) * d < 2 ^ 32 := by linarith
      norm_num at this
      linarith
    have hd0 : (0 : ℚ) ≤ d := Nat.cast_nonneg d
    have ha := roundDouble_error m 7 (by rw [abs_lt]; constructor <;> norm_num <;> linarith)
    rw [abs_le] at ha
    norm_num at ha
    have hb' := roundDouble_error (roundDouble m / 60) 1
      (by rw [abs_lt]; constructor <;> norm_num <;> linarith)
    rw [abs_le] at hb'
    norm_num at hb'
    have hc' := roundDouble_error ((d : ℚ) + roundDouble (roundDouble m / 60)) 26
      (by rw [abs_lt]; constructor <;> norm_num <;> linarith)
    rw [abs_le] at hc'
    norm_num at hc'
    rw [abs_le]
    constructor <;> norm_num <;> linarith
  · rw [hcast, hc, hdeg]
  · rw [hcast, hc]; omega
  · omega

/-- Instance of C20 (amended) at 45 degrees 30.5 minutes, written `4530.5`. -/
theorem ConvertDmsToDegrees_rounded_witness :
    |ConvertDmsToDegrees (100 * ((45 : ℕ) : ℚ) + 61 / 2) - (((45 : ℕ) : ℚ) + 61 / 2 / 60)| ≤
      1 / 2 ^ 27 :=
  (ConvertDmsToDegrees_rounded 45 (61 / 2) (by norm_num) (by norm_num) (by norm_num)).1

end novatel_gps_driver
